import Mathlib

/-!
Verification of the sandwich-detection core of the `sanscry` repository.

The definitions below are a shallow embedding of `src/processor.py`,
`src/tx_types.py` and `src/utils.py`.  Python dictionaries coming from the
`jsonParsed` RPC encoding are modelled as Lean structures; fallible Python
code (exceptions: `KeyError`, `IndexError`, `StopIteration`, explicit
`raise`) is modelled with `Except String`.  Loops are modelled by fueled
structural recursion; every caller supplies fuel that dominates the loop
bound, and running out of fuel yields a distinguished error so that any
`.ok` result corresponds to a genuine Python execution.

Modelling notes, for the reader who diffs against the source:
* `stackHeight` is declared `Optional[int]` in `tx_types.py`; the block
  contract (spec section 6) provides it on every instruction, and the code
  compares it with `>` unconditionally, so it is modelled as `Int`.
* The payload of a parsed instruction (`parsed.info`) is modelled with
  all of the fields the pipeline ever reads present; claims about missing
  dictionary keys are out of scope.  The classification failure of
  `TransferInfo.from_ix` (the final `raise`) is modelled exactly.
* Python `set` objects of strings are modelled as `List String`; the code
  only ever tests membership and non-emptiness of intersections, for which
  duplicates and order are irrelevant.
-/

/-- Message of the fallback error produced when a fueled loop runs out of
fuel.  This situation has no Python counterpart; fuel supplied by the
entry points dominates every loop bound, and any theorem below that
assumes an `.ok` result is unaffected. -/
def fuelMsg : String := "model fuel exhausted"

/-- Python `IndexError` (out-of-range list subscript). -/
def indexErrorMsg : String := "list index out of range"

/-- Python `KeyError` raised when a missing dictionary key is read. -/
def keyErrorMsg : String := "KeyError"

/-- Python `StopIteration` raised by `next` in `utils.get_signer` when no
account key is a signer. -/
def stopIterationMsg : String := "StopIteration"

/-- Message of the `raise Exception(f"Unknown transfer instruction: ...")`
in `tx_types.py` (the interpolated instruction is dropped). -/
def unknownTransferMsg : String := "Unknown transfer instruction"

/-- Fields of `parsed.info` read by the pipeline: `tx_types.py` reads
`mint`, `amount`, `tokenAmount.amount`, `lamports`, `source`,
`destination`. -/
structure ParsedInfo where
  mint : String
  amount : Int
  tokenAmountAmount : Int
  lamports : Int
  source : String
  destination : String
deriving DecidableEq

/-- The `parsed` dictionary of a jsonParsed instruction: a `type` tag and
an `info` payload. -/
structure ParsedData where
  type : String
  info : ParsedInfo
deriving DecidableEq

/-- An instruction (`tx_types.Instruction`): `RegularInstruction` has
`parsed = none`; `ParsedInstruction` has `parsed = some _` and a
`program` tag.  `program` is the empty string when the key is absent. -/
structure Instruction where
  programId : String
  program : String
  accounts : List String
  data : String
  stackHeight : Int
  parsed : Option ParsedData
deriving DecidableEq

/-- An account key of a transaction message. -/
structure AccountKey where
  pubkey : String
  signer : Bool
deriving DecidableEq

/-- One inner-instruction group of `meta.innerInstructions`. -/
structure InnerInstructionGroup where
  index : Nat
  instructions : List Instruction
deriving DecidableEq

/-- The transaction message: account keys and top-level instructions. -/
structure TransactionMessage where
  accountKeys : List AccountKey
  instructions : List Instruction
deriving DecidableEq

/-- Transaction metadata: the error field (only tested for `None`) and the
inner-instruction groups. -/
structure TransactionMeta where
  err : Option String
  innerInstructions : List InnerInstructionGroup
deriving DecidableEq

/-- The transaction: message plus signature list. -/
structure SolTransaction where
  message : TransactionMessage
  signatures : List String
deriving DecidableEq

/-- A transaction response (`tx_types.TransactionResponse`). -/
structure TransactionResponse where
  meta : TransactionMeta
  transaction : SolTransaction
deriving DecidableEq

/-- A candidate swap (`tx_types.PotentialSwap`). -/
structure PotentialSwap where
  exchange_instruction : Instruction
  transfer_instructions : List Instruction
  top_level_ix : Instruction
deriving DecidableEq

/-- A swap with its transaction context
(`tx_types.PotentialSwapWithTxContext`). -/
structure PotentialSwapWithTxContext where
  tx_resp : TransactionResponse
  potential_swap : PotentialSwap
  number_of_tx_swaps : Nat
deriving DecidableEq

/-- A candidate sandwich (`tx_types.PotentialSandwich`). -/
structure PotentialSandwich where
  entry_tx : PotentialSwapWithTxContext
  target_txs : List PotentialSwapWithTxContext
  exit_tx : PotentialSwapWithTxContext
deriving DecidableEq

/-- A block as returned by `utils.get_block` (the RPC fetch itself is
external I/O, spec section 6): the transaction list and the block time. -/
structure Block where
  transactions : List TransactionResponse
  blockTime : Int
deriving DecidableEq

/-- The transfer type tags (`processor.transfer_types`). -/
def transfer_types : List String := ["transfer", "transferChecked"]

/-- Python `processor.is_transfer`: the instruction has a `parsed`
dictionary whose `type` is `transfer` or `transferChecked`. -/
def is_transfer (ix : Instruction) : Bool :=
  match ix.parsed with
  | some p => transfer_types.contains p.type
  | none => false

/-- Python `processor.is_transaction_successful`: `meta.err is None`. -/
def is_transaction_successful (tx_resp : TransactionResponse) : Bool :=
  tx_resp.meta.err.isNone

/-- Python `processor.get_signature`: `signatures[0]`, an `IndexError`
when the list is empty. -/
def get_signature (tx_resp : TransactionResponse) : Except String String :=
  match tx_resp.transaction.signatures.head? with
  | some s => .ok s
  | none => .error indexErrorMsg

/-- Python `utils.get_signer`: the `pubkey` of the first account key with
`signer = true`; `StopIteration` when there is none. -/
def get_signer (tx_resp : TransactionResponse) : Except String String :=
  match tx_resp.transaction.message.accountKeys.find? (fun a => a.signer) with
  | some a => .ok a.pubkey
  | none => .error stopIterationMsg

/-- The native wrapped-SOL mint used by the system-transfer branch of
`TransferInfo.from_ix`. -/
def wrappedSolMint : String := "So11111111111111111111111111111111111111112"

/-- A normalized transfer (`tx_types.TransferInfo`). -/
structure TransferInfo where
  mint : Option String
  amount : Int
  source : String
  destination : String
deriving DecidableEq

/-- Python `TransferInfo.from_ix`: the three recognized shapes
(`transferChecked`, spl-token `transfer`, system `transfer`); anything
else raises `Unknown transfer instruction`.  Reading `parsed` on a
regular instruction raises `KeyError`. -/
def TransferInfo.from_ix (ix : Instruction) : Except String TransferInfo :=
  match ix.parsed with
  | none => .error keyErrorMsg
  | some p =>
    if p.type = "transferChecked" then
      .ok ⟨some p.info.mint, p.info.tokenAmountAmount, p.info.source, p.info.destination⟩
    else if ix.program = "spl-token" then
      .ok ⟨none, p.info.amount, p.info.source, p.info.destination⟩
    else if ix.program = "system" then
      .ok ⟨some wrappedSolMint, p.info.lamports, p.info.source, p.info.destination⟩
    else
      .error unknownTransferMsg

/-! ## Swap extractor (`processor.extract_potential_swaps`) -/

/-- The stack restoration of lines 54-55 and 66-67 of `processor.py`:
`while not(h > stack[-1].stackHeight): stack.pop()`.  Returns the new top
together with the remaining stack; popping an empty stack is the Python
`IndexError` of reading `stack[-1]`. -/
def popStack (h : Int) : List Instruction → Except String (Instruction × List Instruction)
  | [] => .error indexErrorMsg
  | top :: rest =>
    if h > top.stackHeight then .ok (top, top :: rest)
    else popStack h rest

/-- Lines 65-69 of `processor.py`: advance over consecutive non-transfer
instructions, restoring and pushing the call stack for each; stops at the
first transfer (or the end), returning the stack and remaining list. -/
def walkNonTransfers : List Instruction → List Instruction →
    Except String (List Instruction × List Instruction)
  | rest, stack =>
    match rest with
    | [] => .ok (stack, [])
    | ix :: rest' =>
      if is_transfer ix then .ok (stack, ix :: rest')
      else
        match popStack ix.stackHeight stack with
        | .error e => .error e
        | .ok (_, s) => walkNonTransfers rest' (ix :: s)

/-- The inner `while right_ptr < len(program_ixs)` loop, lines 52-69 of
`processor.py`.  `rest` is `program_ixs[right_ptr:]`; each iteration
restores the stack for the instruction at `right_ptr`, collects the
consecutive transfers that follow, emits a `PotentialSwap` when between
two and four were collected, then walks the following non-transfers.
Fuel dominates the loop bound (each iteration consumes at least one
instruction). -/
def innerLoop (top : Instruction) :
    Nat → List Instruction → List Instruction → List PotentialSwap →
    Except String (List PotentialSwap)
  | 0, _, _, _ => .error fuelMsg
  | _ + 1, [], _, acc => .ok acc
  | fuel + 1, ix :: rest, stack, acc =>
    match popStack ix.stackHeight stack with
    | .error e => .error e
    | .ok (non_transfer_ix, stack1) =>
      let transfers := (ix :: rest).takeWhile is_transfer
      let rest1 := (ix :: rest).dropWhile is_transfer
      let acc1 :=
        if 1 < transfers.length ∧ transfers.length < 5 then
          acc ++ [⟨non_transfer_ix, transfers, top⟩]
        else acc
      match walkNonTransfers rest1 stack1 with
      | .error e => .error e
      | .ok (stack2, rest2) => innerLoop top fuel rest2 stack2 acc1

/-- One inner-instruction group, lines 37-70 of `processor.py`.  The
top-level instruction at the group's `index` is prepended with
`stackHeight := 0` (an out-of-range `index` is the Python `IndexError`).
The `while left_ptr < len and right_ptr < len` outer loop runs exactly
one pass: the inner loop only exits with `right_ptr = len`, and the pass
then sets `left_ptr = right_ptr`, so the second check of the outer
condition always fails.  The pass itself first advances `left_ptr` past
leading transfers; when that reaches the end of the list the guarded read
`program_ixs[left_ptr if left_ptr < len else -1]` takes its `-1` branch
(the last list element is read and pushed, `right_ptr = len + 1`, and the
inner loop is skipped) — the accumulator's boolean records whether this
fallback branch was taken, instrumenting the read for analysis. -/
def processGroup (msgIxs : List Instruction) (acc : List PotentialSwap × Bool)
    (g : InnerInstructionGroup) : Except String (List PotentialSwap × Bool) :=
  match msgIxs.get? g.index with
  | none => .error indexErrorMsg
  | some topRaw =>
    let top : Instruction := { topRaw with stackHeight := 0 }
    let l := top :: g.instructions
    match l.dropWhile is_transfer with
    | [] => .ok (acc.1, true)
    | non_transfer_ix :: rest =>
      match innerLoop top (rest.length + 1) rest [non_transfer_ix] acc.1 with
      | .error e => .error e
      | .ok swaps => .ok (swaps, acc.2)

/-- Python `extract_potential_swaps`, instrumented with the boolean of
`processGroup`: folds the groups of `meta.innerInstructions` in order,
accumulating the emitted swaps. -/
def extract_aux (tx_resp : TransactionResponse) :
    Except String (List PotentialSwap × Bool) :=
  tx_resp.meta.innerInstructions.foldlM
    (processGroup tx_resp.transaction.message.instructions) ([], false)

/-- Python `processor.extract_potential_swaps`. -/
def extract_potential_swaps (tx_resp : TransactionResponse) :
    Except String (List PotentialSwap) :=
  (extract_aux tx_resp).map Prod.fst

/-! ## Sandwich matcher (`processor.parse_block_for_potential_sandwiches`) -/

/-- Eager classification of a list of transfer instructions (the Python
`list(TransferInfo.from_ix(ix) for ix in ...)`): the first failure
propagates. -/
def mapFromIx : List Instruction → Except String (List TransferInfo)
  | [] => .ok []
  | ix :: rest =>
    match TransferInfo.from_ix ix with
    | .error e => .error e
    | .ok ti =>
      match mapFromIx rest with
      | .error e => .error e
      | .ok tis => .ok (ti :: tis)

/-- Lines 107-108 / 129 of `processor.py`: classify the first two transfer
instructions of a swap (`transfer_instructions[0:2]`), eagerly, so that
the first classification failure propagates. -/
def transferInfosOfFirstTwo (ps : PotentialSwap) : Except String (List TransferInfo) :=
  mapFromIx (ps.transfer_instructions.take 2)

/-- The candidate source-vault set of a classified transfer list. -/
def sourcesOf (l : List TransferInfo) : List String :=
  l.map (fun t => t.source)

/-- The candidate destination-vault set of a classified transfer list. -/
def destinationsOf (l : List TransferInfo) : List String :=
  l.map (fun t => t.destination)

/-- Non-emptiness of the intersection of two string sets (the truthiness
of a Python `&` of sets). -/
def intersects (a b : List String) : Bool :=
  a.any (fun x => b.contains x)

/-- The elements Python's `set.update(s)` adds when `s` is a string: its
characters, each a one-character string.  Line 137 of `processor.py`
calls `attacker_tx_set.update(entry_signature, exit_signature)`, which
iterates both signature strings. -/
def sigChars (s : String) : List String :=
  s.toList.map Char.toString

/-- An emission record of the matcher: the `PotentialSandwich` appended at
line 138 of `processor.py` together with the loop indices (`i`, `j`, the
victim indices `k`) and signatures in scope at the emission — pure
instrumentation of values the loop already computes. -/
structure EmitRec where
  entryIdx : Nat
  exitIdx : Nat
  entry_sw : PotentialSwapWithTxContext
  victims : List (Nat × PotentialSwapWithTxContext)
  exit_sw : PotentialSwapWithTxContext
  entrySig : String
  exitSig : String
deriving DecidableEq

/-- The `PotentialSandwich` of an emission record, exactly the value
`PotentialSandwich(entry_tx, target_txs, exit_tx)` built at line 138. -/
def EmitRec.sand (r : EmitRec) : PotentialSandwich :=
  ⟨r.entry_sw, r.victims.map Prod.snd, r.exit_sw⟩

/-- The victim-gathering `for k in range(i + 1, j)` loop, lines 121-134 of
`processor.py`.  Returns `none` when a transaction signed by the entry
signer is found in the interval (`valid_sequence = False`, which breaks),
otherwise the collected victims with their indices.  `eSrc`/`eDst` are the
entry candidate vault sets computed at the current `j`. -/
def victimLoop (txl : List PotentialSwapWithTxContext)
    (entrySigner entryDex : String) (eSrc eDst : List String) :
    Nat → Nat → Nat →
    Except String (Option (List (Nat × PotentialSwapWithTxContext)))
  | 0, _, _ => .error fuelMsg
  | fuel + 1, k, j =>
    if k < j then
      match txl.get? k with
      | none => .error indexErrorMsg
      | some target =>
        match get_signer target.tx_resp with
        | .error e => .error e
        | .ok tSigner =>
          if tSigner = entrySigner then .ok none
          else
            let currentDex := target.potential_swap.exchange_instruction.programId
            if currentDex = entryDex then
              match transferInfosOfFirstTwo target.potential_swap with
              | .error e => .error e
              | .ok tInf =>
                if intersects eSrc (sourcesOf tInf) && intersects eDst (destinationsOf tInf) then
                  match victimLoop txl entrySigner entryDex eSrc eDst fuel (k + 1) j with
                  | .error e => .error e
                  | .ok none => .ok none
                  | .ok (some vs) => .ok (some ((k, target) :: vs))
                else victimLoop txl entrySigner entryDex eSrc eDst fuel (k + 1) j
            else victimLoop txl entrySigner entryDex eSrc eDst fuel (k + 1) j
    else .ok (some [])

/-- The exit-scan `for j in range(i + 2, len(tx_list))` loop, lines
95-148 of `processor.py`.  Returns the emission record of the sandwich
emitted before the `break` at line 148, or `none` when the scan runs off
the end of the list. -/
def exitLoop (txl : List PotentialSwapWithTxContext) (i : Nat)
    (entry : PotentialSwapWithTxContext) (entrySigner entrySig : String)
    (used : List String) :
    Nat → Nat → Except String (Option EmitRec)
  | 0, _ => .error fuelMsg
  | fuel + 1, j =>
    if j < txl.length then
      match txl.get? j with
      | none => .error indexErrorMsg
      | some exitCand =>
        match get_signer exitCand.tx_resp with
        | .error e => .error e
        | .ok exitSigner =>
          match get_signature exitCand.tx_resp with
          | .error e => .error e
          | .ok exitSig =>
            if used.contains exitSig then
              exitLoop txl i entry entrySigner entrySig used fuel (j + 1)
            else if exitSigner = entrySigner then
              let entryDex := entry.potential_swap.exchange_instruction.programId
              let exitDex := exitCand.potential_swap.exchange_instruction.programId
              if entryDex ≠ exitDex then
                exitLoop txl i entry entrySigner entrySig used fuel (j + 1)
              else
                match transferInfosOfFirstTwo entry.potential_swap with
                | .error e => .error e
                | .ok eInf =>
                  match transferInfosOfFirstTwo exitCand.potential_swap with
                  | .error e => .error e
                  | .ok xInf =>
                    if !(intersects (sourcesOf eInf) (destinationsOf xInf) &&
                         intersects (destinationsOf eInf) (sourcesOf xInf)) then
                      exitLoop txl i entry entrySigner entrySig used fuel (j + 1)
                    else
                      match victimLoop txl entrySigner entryDex
                          (sourcesOf eInf) (destinationsOf eInf)
                          (txl.length + 1) (i + 1) j with
                      | .error e => .error e
                      | .ok none =>
                        exitLoop txl i entry entrySigner entrySig used fuel (j + 1)
                      | .ok (some []) =>
                        exitLoop txl i entry entrySigner entrySig used fuel (j + 1)
                      | .ok (some (v :: vs)) =>
                        .ok (some ⟨i, j, entry, v :: vs, exitCand, entrySig, exitSig⟩)
            else exitLoop txl i entry entrySigner entrySig used fuel (j + 1)
    else .ok none

/-- The main `for i in range(len(tx_list))` loop, lines 86-148 of
`processor.py`.  `used` is `attacker_tx_set`; on an emission the
characters of both signatures are added (the Python
`set.update(entry_signature, exit_signature)` semantics) and the record is
appended. -/
def matchLoop (txl : List PotentialSwapWithTxContext) :
    Nat → Nat → List String → List EmitRec → Except String (List EmitRec)
  | 0, _, _, _ => .error fuelMsg
  | fuel + 1, i, used, acc =>
    if i < txl.length then
      match txl.get? i with
      | none => .error indexErrorMsg
      | some entry =>
        match get_signer entry.tx_resp with
        | .error e => .error e
        | .ok entrySigner =>
          match get_signature entry.tx_resp with
          | .error e => .error e
          | .ok entrySig =>
            if used.contains entrySig || entry.number_of_tx_swaps != 1 then
              matchLoop txl fuel (i + 1) used acc
            else
              match exitLoop txl i entry entrySigner entrySig used (txl.length + 1) (i + 2) with
              | .error e => .error e
              | .ok none => matchLoop txl fuel (i + 1) used acc
              | .ok (some r) =>
                matchLoop txl fuel (i + 1)
                  (used ++ sigChars r.entrySig ++ sigChars r.exitSig)
                  (acc ++ [r])
    else .ok acc

/-- Lines 77-82 of `processor.py`: run the extractor on every transaction
(an extraction exception aborts the whole block), and for successful
transactions append each swap with the count of swaps in its
transaction. -/
def buildTxList (txs : List TransactionResponse) :
    Except String (List PotentialSwapWithTxContext) :=
  txs.foldlM
    (fun acc tx_resp =>
      match extract_potential_swaps tx_resp with
      | .error e => .error e
      | .ok potential_swaps =>
        if is_transaction_successful tx_resp then
          .ok (acc ++ potential_swaps.map
            (fun ps => ⟨tx_resp, ps, potential_swaps.length⟩))
        else .ok acc)
    []

/-- The matcher over a block, instrumented with emission records. -/
def parse_block_recs (block : Block) : Except String (List EmitRec) :=
  match buildTxList block.transactions with
  | .error e => .error e
  | .ok txl => matchLoop txl (txl.length + 1) 0 [] []

/-- Python `parse_block_for_potential_sandwiches` on an already-fetched
block: the emitted sandwiches in emission order, with the block time. -/
def parse_block_for_potential_sandwiches (block : Block) :
    Except String (List PotentialSandwich × Int) :=
  match parse_block_recs block with
  | .error e => .error e
  | .ok recs => .ok (recs.map EmitRec.sand, block.blockTime)

/-! ## Direction resolver, fee attribution and driver (`processor.main`,
`tx_types.AttackerTx`, `tx_types.TargetTx`) -/

/-- Pool registry entry (`tx_types.PoolInfo`). -/
structure PoolInfo where
  id : String
  token_a : String
  token_b : String
  token_a_vault : String
  token_b_vault : String
deriving DecidableEq

/-- Exchange registry entry (`tx_types.ExchangeInfo`).  The
`is_valid_swap_data` callable is `lambda x: True` for every entry of
`EXCHANGES_INFO` and is never called by the pipeline, so only the pool
account index is modelled. -/
structure ExchangeInfo where
  pool_index : Nat
deriving DecidableEq

/-- The compiled-in exchange registry `tx_types.EXCHANGES_INFO`, keyed by
DEX program address. -/
def EXCHANGES_INFO : List (String × ExchangeInfo) :=
  [ ("whirLbMiicVdio4qvUfM5KAg6Ct8VwpYzGff3uctyCc", ⟨2⟩),
    ("CAMMCzo5YL8w4VFF8KVHrK22GGUsp5VTaW7grrKgrWqK", ⟨2⟩),
    ("675kPX9MHTjS2zt1qfr1NYHuzeLXfQM9H24wFSUt1Mp8", ⟨1⟩),
    ("Eo7WjKq67rjJQSZxS6z3YkapzY3eMj6Xy8X5EQVn5UaB", ⟨0⟩),
    ("LBUZKhRxPF3XUpBCjp4YzTKgLccjZhTSDM9YuVaPwxo", ⟨0⟩),
    ("2wT8Yq49kHgDzXuPxZSaeLaH1qbmGXtEyPy64bL7aD3c", ⟨1⟩),
    ("SoLFiHG9TfgtdUXUjWAxi3LtvYuFyDLVhBWxdMZxyCe", ⟨1⟩),
    ("H8W3ctz92svYg6mkn1UtGfu2aQr2fnUFHM1RhScEtQDt", ⟨2⟩),
    ("obriQD1zbpyLz95G5n7nJe6a4DPjpFwa5XYPoNm113y", ⟨0⟩),
    ("opnb2LAfJYbRMAHHvqjCwQxanZn7ReEHp1k81EohpZb", ⟨2⟩),
    ("ZERor4xhbUycZ6gb9ntrhqscUcZmAbQDjEAtCf4hbZY", ⟨0⟩),
    ("pAMMBay6oceH9fJKBRHGP5D4bD4sWpmSwMn52FMfXEA", ⟨0⟩) ]

/-- Attacker-side transaction record (`tx_types.AttackerTx`). -/
structure AttackerTx where
  signature : String
  profit_token_amount : Int
  targeted_token_amount : Int
  jito_tip : Int
  priority_fee : Int
deriving DecidableEq

/-- Victim-side transaction record (`tx_types.TargetTx`). -/
structure TargetTx where
  signature : String
  signer : String
  profit_token_amount : Int
  targeted_token_amount : Int
deriving DecidableEq

/-- The canonical output record (`tx_types.Sandwich`). -/
structure Sandwich where
  block : Int
  block_time : Int
  dex : String
  pool : String
  bot : String
  attacker : String
  profit_token : String
  targeted_token : String
  entry_tx : AttackerTx
  target_txs : List TargetTx
  exit_tx : AttackerTx
deriving DecidableEq

/-- One scan of `AttackerTx.get_jito_tip`: the first instruction whose
`parsed` dictionary has `type == "transfer"` and a destination in the
tip-recipient set yields its `lamports`. -/
def tipScan (tips : List String) : List Instruction → Option Int
  | [] => none
  | ix :: rest =>
    match ix.parsed with
    | some p =>
      if p.type = "transfer" && tips.contains p.info.destination then
        some p.info.lamports
      else tipScan tips rest
    | none => tipScan tips rest

/-- Python `AttackerTx.get_jito_tip`, lines 184-193 of `tx_types.py`: scan
the top-level instructions, then the instructions of every
inner-instruction group in order; the first matching transfer supplies the
tip, otherwise 0. -/
def AttackerTx.get_jito_tip (tx : PotentialSwapWithTxContext)
    (jito_tip_accounts : List String) : Int :=
  match tipScan jito_tip_accounts tx.tx_resp.transaction.message.instructions with
  | some n => n
  | none =>
    match tipScan jito_tip_accounts
        (tx.tx_resp.meta.innerInstructions.flatMap (fun g => g.instructions)) with
    | some n => n
    | none => 0

/-- Python `AttackerTx.from_potential_swap`, lines 165-182 of
`tx_types.py`: classify all transfers, split the first two into the
profit-side and targeted-side transfer by matching the first against the
resolved vaults, and read the signature; `priority_fee` is the literal
0. -/
def AttackerTx.from_potential_swap (tx : PotentialSwapWithTxContext)
    (profit_token_vault targeted_token_vault : String)
    (jito_tip_accounts : List String) : Except String AttackerTx :=
  match mapFromIx tx.potential_swap.transfer_instructions with
  | .error e => .error e
  | .ok transfer_infos =>
    match transfer_infos.get? 0 with
    | none => .error indexErrorMsg
    | some t0 =>
      let split : Except String (TransferInfo × TransferInfo) :=
        if profit_token_vault = t0.source ∨ profit_token_vault = t0.destination then
          match transfer_infos.get? 1 with
          | none => .error indexErrorMsg
          | some t1 => .ok (t0, t1)
        else if targeted_token_vault = t0.source ∨ targeted_token_vault = t0.destination then
          match transfer_infos.get? 1 with
          | none => .error indexErrorMsg
          | some t1 => .ok (t1, t0)
        else .error unknownTransferMsg
      match split with
      | .error e => .error e
      | .ok (profit_token_transfer, targeted_token_transfer) =>
        match get_signature tx.tx_resp with
        | .error e => .error e
        | .ok sig =>
          .ok ⟨sig, profit_token_transfer.amount, targeted_token_transfer.amount,
               AttackerTx.get_jito_tip tx jito_tip_accounts, 0⟩

/-- Python `TargetTx.from_potential_swap`, lines 139-155 of
`tx_types.py`. -/
def TargetTx.from_potential_swap (tx : PotentialSwapWithTxContext)
    (profit_token_vault targeted_token_vault : String) :
    Except String TargetTx :=
  match mapFromIx tx.potential_swap.transfer_instructions with
  | .error e => .error e
  | .ok transfer_infos =>
    match transfer_infos.get? 0 with
    | none => .error indexErrorMsg
    | some t0 =>
      let split : Except String (TransferInfo × TransferInfo) :=
        if profit_token_vault = t0.source ∨ profit_token_vault = t0.destination then
          match transfer_infos.get? 1 with
          | none => .error indexErrorMsg
          | some t1 => .ok (t0, t1)
        else if targeted_token_vault = t0.source ∨ targeted_token_vault = t0.destination then
          match transfer_infos.get? 1 with
          | none => .error indexErrorMsg
          | some t1 => .ok (t1, t0)
        else .error unknownTransferMsg
      match split with
      | .error e => .error e
      | .ok (profit_token_transfer, targeted_token_transfer) =>
        match get_signature tx.tx_resp with
        | .error e => .error e
        | .ok sig =>
          match get_signer tx.tx_resp with
          | .error e => .error e
          | .ok signer =>
            .ok ⟨sig, signer, profit_token_transfer.amount, targeted_token_transfer.amount⟩

/-- The resolved trade direction of the entry swap: profit token, targeted
token and their vaults. -/
structure Direction where
  profit_token : String
  targeted_token : String
  profit_token_vault : String
  targeted_token_vault : String
deriving DecidableEq

/-- The direction-resolution `for transfer_ix in ... else` loop, lines
183-199 of `processor.py`: classify the entry transfers in order; the
first one whose destination or source matches a vault of the pool decides
the direction; `none` models the `for`-`else` fall-through (the
`Unmatchable trade direction` skip). -/
def resolveDirection (pool_info : PoolInfo) :
    List Instruction → Except String (Option Direction)
  | [] => .ok none
  | transfer_ix :: rest =>
    match TransferInfo.from_ix transfer_ix with
    | .error e => .error e
    | .ok transfer_info =>
      if transfer_info.destination = pool_info.token_a_vault ∨
         transfer_info.source = pool_info.token_b_vault then
        .ok (some ⟨pool_info.token_a, pool_info.token_b,
                   pool_info.token_a_vault, pool_info.token_b_vault⟩)
      else if transfer_info.destination = pool_info.token_b_vault ∨
              transfer_info.source = pool_info.token_a_vault then
        .ok (some ⟨pool_info.token_b, pool_info.token_a,
                   pool_info.token_b_vault, pool_info.token_a_vault⟩)
      else resolveDirection pool_info rest

/-- Lines 170-213 of `processor.main` for one `potential_sandwich`: the
registry lookups, pool resolution, direction resolution and the
construction of the `Sandwich` record, but not yet the profit filter.
`.ok none` models every `continue` (unknown DEX, invalid pool index,
unknown pool, unmatchable direction). -/
def driverResolve (block_number block_time : Int)
    (pools_map : List (String × PoolInfo)) (jito_tip_accounts : List String)
    (potential_sandwich : PotentialSandwich) : Except String (Option Sandwich) :=
  let dex := potential_sandwich.entry_tx.potential_swap.exchange_instruction.programId
  match EXCHANGES_INFO.lookup dex with
  | none => .ok none
  | some exchange_info =>
    if potential_sandwich.entry_tx.potential_swap.exchange_instruction.accounts.length ≤
        exchange_info.pool_index then
      .ok none
    else
      let pool_address :=
        potential_sandwich.entry_tx.potential_swap.exchange_instruction.accounts.getD
          exchange_info.pool_index ""
      match pools_map.lookup pool_address with
      | none => .ok none
      | some pool_info =>
        match resolveDirection pool_info
            potential_sandwich.entry_tx.potential_swap.transfer_instructions with
        | .error e => .error e
        | .ok none => .ok none
        | .ok (some d) =>
          match get_signer potential_sandwich.entry_tx.tx_resp with
          | .error e => .error e
          | .ok attacker =>
            match AttackerTx.from_potential_swap potential_sandwich.entry_tx
                d.profit_token_vault d.targeted_token_vault jito_tip_accounts with
            | .error e => .error e
            | .ok entryA =>
              match potential_sandwich.target_txs.mapM
                  (fun t => TargetTx.from_potential_swap t
                    d.profit_token_vault d.targeted_token_vault) with
              | .error e => .error e
              | .ok targets =>
                match AttackerTx.from_potential_swap potential_sandwich.exit_tx
                    d.profit_token_vault d.targeted_token_vault jito_tip_accounts with
                | .error e => .error e
                | .ok exitA =>
                  .ok (some ⟨block_number, block_time, dex, pool_info.id,
                    potential_sandwich.entry_tx.potential_swap.top_level_ix.programId,
                    attacker, d.profit_token, d.targeted_token,
                    entryA, targets, exitA⟩)

/-- Lines 170-217 of `processor.main` for one `potential_sandwich`: the
resolution above followed by the profit filter of line 214; `some s`
models the `store_sandwich(s)` call, `none` the skip. -/
def driverStep (block_number block_time : Int)
    (pools_map : List (String × PoolInfo)) (jito_tip_accounts : List String)
    (potential_sandwich : PotentialSandwich) : Except String (Option Sandwich) :=
  match driverResolve block_number block_time pools_map jito_tip_accounts
      potential_sandwich with
  | .error e => .error e
  | .ok none => .ok none
  | .ok (some sandwich) =>
    if sandwich.exit_tx.profit_token_amount - sandwich.entry_tx.profit_token_amount > 0 then
      .ok (some sandwich)
    else
      .ok none

/-! ## Concrete inputs used by the counterexamples and witnesses -/

/-- A well-formed spl-token transfer instruction at the given stack
height. -/
def mkTransfer (src dst : String) (amt : Int) (h : Int) : Instruction :=
  ⟨"TokenkegQfeZyiNwAJbNbGKPFXCWuBvf9Ss623VQ5DA", "spl-token", [], "", h,
   some ⟨"transfer", ⟨"", amt, 0, 0, src, dst⟩⟩⟩

/-- A transfer-tagged instruction whose `program` is none of the
recognized ones, so that `TransferInfo.from_ix` raises. -/
def mkBadTransfer (src dst : String) (h : Int) : Instruction :=
  ⟨"TokenkegQfeZyiNwAJbNbGKPFXCWuBvf9Ss623VQ5DA", "weird", [], "", h,
   some ⟨"transfer", ⟨"", 5, 0, 0, src, dst⟩⟩⟩

/-- A non-transfer (regular) DEX invocation instruction. -/
def mkDexIx (pid : String) (accounts : List String) (h : Int) : Instruction :=
  ⟨pid, "", accounts, "", h, none⟩

/-- A single-swap transaction: one top-level DEX instruction whose inner
group is two spl-token transfers `src → dst`. -/
def mkSwapTx (sig signer src dst : String) : TransactionResponse :=
  ⟨⟨none, [⟨0, [mkTransfer src dst 5 2, mkTransfer src dst 6 2]⟩]⟩,
   ⟨⟨[⟨signer, true⟩], [mkDexIx "dexProg" [] 1]⟩, [sig]⟩⟩

/-- Like `mkSwapTx` but with unclassifiable transfers. -/
def mkBadSwapTx (sig signer src dst : String) : TransactionResponse :=
  ⟨⟨none, [⟨0, [mkBadTransfer src dst 2, mkBadTransfer src dst 2]⟩]⟩,
   ⟨⟨[⟨signer, true⟩], [mkDexIx "dexProg" [] 1]⟩, [sig]⟩⟩

/-- Five single-swap transactions: signer A entry, victim, signer A exit
(opposite direction), a second victim, and a second signer-A exit of
direction opposite to the first exit.  Exercises the reuse of transaction
`sigX` in two sandwiches. -/
def c1Block : Block :=
  ⟨[ mkSwapTx "sigE" "A" "s" "d",
     mkSwapTx "sigV" "B" "s" "d",
     mkSwapTx "sigX" "A" "d" "s",
     mkSwapTx "sigW" "C" "d" "s",
     mkSwapTx "sigY" "A" "s" "d" ], 1234⟩

/-- A transaction whose (prepended) instruction list is: a non-transfer at
stack height 0, a non-transfer at height 1, a transfer at height 2 and a
transfer at height 1 — the second collected transfer is *not* deeper than
the exchange instruction. -/
def c2Tx : TransactionResponse :=
  ⟨⟨none, [⟨0, [mkDexIx "innerProg" [] 1,
                mkTransfer "s" "d" 5 2,
                mkTransfer "d" "u" 6 1]⟩]⟩,
   ⟨⟨[⟨"A", true⟩], [mkDexIx "dexProg" [] 1]⟩, ["sigC2"]⟩⟩

/-- A block whose entry candidate has unclassifiable transfers but whose
extraction succeeds; classification is first attempted by the matcher. -/
def c4Block : Block :=
  ⟨[ mkBadSwapTx "sigB" "A" "s" "d",
     mkSwapTx "sigV" "B" "s" "d",
     mkSwapTx "sigX" "A" "d" "s" ], 99⟩

/-- A transaction whose inner-instruction group is empty and whose
top-level instruction is itself a parsed transfer: the prepended list
consists of transfers only. -/
def c10Tx : TransactionResponse :=
  ⟨⟨none, [⟨0, []⟩]⟩,
   ⟨⟨[⟨"A", true⟩], [mkTransfer "s" "d" 5 1]⟩, ["sigT"]⟩⟩

/-- The Orca whirlpool program address (pool account index 2 in
`EXCHANGES_INFO`). -/
def orcaAddr : String := "whirLbMiicVdio4qvUfM5KAg6Ct8VwpYzGff3uctyCc"

/-- A concrete pool used by the driver examples. -/
def drvPool : PoolInfo := ⟨"pool1", "tokA", "tokB", "vA", "vB"⟩

/-- A pool registry holding only `drvPool`. -/
def drvPools : List (String × PoolInfo) := [("pool1", drvPool)]

/-- A top-level system transfer of 777 lamports to `tip1`. -/
def tipTransferIx : Instruction :=
  ⟨"11111111111111111111111111111111", "system", [], "", 1,
   some ⟨"transfer", ⟨"", 0, 0, 777, "A", "tip1"⟩⟩⟩

/-- Entry transaction of the driver example: swap selling token A into the
pool (first transfer into `vA`) plus a tip transfer. -/
def drvEntryTx : TransactionResponse :=
  ⟨⟨none, [⟨0, [mkTransfer "uA" "vA" 10 2, mkTransfer "vB" "uB" 20 2]⟩]⟩,
   ⟨⟨[⟨"A", true⟩], [mkDexIx orcaAddr ["x", "y", "pool1"] 1, tipTransferIx]⟩,
    ["sigEn"]⟩⟩

/-- Exit transaction of the driver example: swap of the opposite
direction returning 15 units of the profit token. -/
def drvExitTx : TransactionResponse :=
  ⟨⟨none, [⟨0, [mkTransfer "vA" "uA2" 15 2, mkTransfer "uB2" "vB" 30 2]⟩]⟩,
   ⟨⟨[⟨"A", true⟩], [mkDexIx orcaAddr ["x", "y", "pool1"] 1]⟩, ["sigEx"]⟩⟩

/-- The entry swap of the driver example. -/
def drvEntrySwap : PotentialSwapWithTxContext :=
  ⟨drvEntryTx,
   ⟨mkDexIx orcaAddr ["x", "y", "pool1"] 0,
    [mkTransfer "uA" "vA" 10 2, mkTransfer "vB" "uB" 20 2],
    mkDexIx orcaAddr ["x", "y", "pool1"] 0⟩, 1⟩

/-- The exit swap of the driver example. -/
def drvExitSwap : PotentialSwapWithTxContext :=
  ⟨drvExitTx,
   ⟨mkDexIx orcaAddr ["x", "y", "pool1"] 0,
    [mkTransfer "vA" "uA2" 15 2, mkTransfer "uB2" "vB" 30 2],
    mkDexIx orcaAddr ["x", "y", "pool1"] 0⟩, 1⟩

/-- The potential sandwich of the driver example (no victims needed by the
driver itself). -/
def drvSandwich : PotentialSandwich := ⟨drvEntrySwap, [], drvExitSwap⟩

/-! ## Extractor lemmas -/

theorem takeWhile_cons_pos {α : Type} (p : α → Bool) (a : α) (l : List α)
    (h : p a = true) : (a :: l).takeWhile p = a :: l.takeWhile p := by
  simp [List.takeWhile, h]

theorem takeWhile_cons_neg {α : Type} (p : α → Bool) (a : α) (l : List α)
    (h : p a = false) : (a :: l).takeWhile p = [] := by
  simp [List.takeWhile, h]

theorem dropWhile_cons_pos {α : Type} (p : α → Bool) (a : α) (l : List α)
    (h : p a = true) : (a :: l).dropWhile p = l.dropWhile p := by
  simp [List.dropWhile, h]

theorem dropWhile_cons_neg {α : Type} (p : α → Bool) (a : α) (l : List α)
    (h : p a = false) : (a :: l).dropWhile p = a :: l := by
  simp [List.dropWhile, h]

/-- Facts about a successful stack restoration: the returned top is an
element of the stack, the returned stack is made of stack elements, and
the restored top is strictly shallower than the instruction height. -/
theorem popStack_ok_facts (h : Int) :
    ∀ (s : List Instruction) (nt : Instruction) (s' : List Instruction),
      popStack h s = .ok (nt, s') →
      nt ∈ s ∧ (∀ x ∈ s', x ∈ s) ∧ h > nt.stackHeight := by
  intro s
  induction s with
  | nil => intro nt s' hp; simp [popStack] at hp
  | cons top rest ih =>
    intro nt s' hp
    by_cases hc : h > top.stackHeight
    · rw [popStack, if_pos hc] at hp
      obtain ⟨h1, h2⟩ := Prod.mk.injEq .. ▸ Except.ok.inj hp
      subst h1; subst h2
      exact ⟨List.mem_cons_self _ _, fun x hx => hx, hc⟩
    · rw [popStack, if_neg hc] at hp
      obtain ⟨hmem, hsub, hgt⟩ := ih nt s' hp
      exact ⟨List.mem_cons_of_mem _ hmem,
             fun x hx => List.mem_cons_of_mem _ (hsub x hx), hgt⟩

/-- The non-transfer walk preserves the all-non-transfer stack
invariant. -/
theorem walkNonTransfers_stack_inv :
    ∀ (rest stack s' r' : List Instruction),
      walkNonTransfers rest stack = .ok (s', r') →
      (∀ x ∈ stack, is_transfer x = false) →
      (∀ x ∈ s', is_transfer x = false) := by
  intro rest
  induction rest with
  | nil =>
    intro stack s' r' hw hs
    rw [walkNonTransfers] at hw
    obtain ⟨h1, _⟩ := Prod.mk.injEq .. ▸ Except.ok.inj hw
    exact h1 ▸ hs
  | cons ix rest' ih =>
    intro stack s' r' hw hs
    rw [walkNonTransfers] at hw
    by_cases ht : is_transfer ix
    · rw [if_pos ht] at hw
      obtain ⟨h1, _⟩ := Prod.mk.injEq .. ▸ Except.ok.inj hw
      exact h1 ▸ hs
    · rw [if_neg ht] at hw
      cases hp : popStack ix.stackHeight stack with
      | error e => rw [hp] at hw; exact absurd hw (by simp)
      | ok pr =>
        rw [hp] at hw
        obtain ⟨nt, s1⟩ := pr
        obtain ⟨_, hsub, _⟩ := popStack_ok_facts ix.stackHeight stack nt s1 hp
        refine ih (ix :: s1) s' r' hw ?_
        intro x hx
        rcases List.mem_cons.mp hx with hx | hx
        · exact hx ▸ eq_false_of_ne_true ht
        · exact hs x (hsub x hx)

/-- The per-swap invariant maintained by the extractor: transfer count in
the two-to-four band, a non-transfer exchange instruction, the group's
(height-zero) top-level instruction, and a first transfer strictly deeper
than the exchange instruction. -/
def SwapOK (top : Instruction) (p : PotentialSwap) : Prop :=
  2 ≤ p.transfer_instructions.length ∧ p.transfer_instructions.length ≤ 4 ∧
  is_transfer p.exchange_instruction = false ∧
  p.top_level_ix = top ∧
  ∀ t0, p.transfer_instructions.head? = some t0 →
    t0.stackHeight > p.exchange_instruction.stackHeight

/-- Every swap in the inner loop's result was either already in the
accumulator or satisfies `SwapOK` for the group's top-level instruction,
provided the stack holds only non-transfers. -/
theorem innerLoop_inv (top : Instruction) :
    ∀ (fuel : Nat) (rest stack : List Instruction) (acc res : List PotentialSwap),
      (∀ x ∈ stack, is_transfer x = false) →
      innerLoop top fuel rest stack acc = .ok res →
      ∀ p ∈ res, p ∈ acc ∨ SwapOK top p := by
  intro fuel
  induction fuel with
  | zero => intro rest stack acc res _ hl; exact absurd hl (by simp [innerLoop])
  | succ fuel ih =>
    intro rest stack acc res hs hl
    match rest with
    | [] =>
      rw [innerLoop] at hl
      intro p hp
      exact Or.inl (Except.ok.inj hl ▸ hp)
    | ix :: rest' =>
      rw [innerLoop] at hl
      cases hp : popStack ix.stackHeight stack with
      | error e => rw [hp] at hl; exact absurd hl (by simp)
      | ok pr =>
        rw [hp] at hl
        obtain ⟨nt, stack1⟩ := pr
        dsimp only at hl
        obtain ⟨hntmem, hsub, hgt⟩ := popStack_ok_facts ix.stackHeight stack nt stack1 hp
        cases hw : walkNonTransfers ((ix :: rest').dropWhile is_transfer) stack1 with
        | error e => rw [hw] at hl; exact absurd hl (by simp)
        | ok pr2 =>
          rw [hw] at hl
          obtain ⟨stack2, rest2⟩ := pr2
          dsimp only at hl
          have hstack1 : ∀ x ∈ stack1, is_transfer x = false := fun x hx => hs x (hsub x hx)
          have hstack2 : ∀ x ∈ stack2, is_transfer x = false :=
            walkNonTransfers_stack_inv _ _ _ _ hw hstack1
          intro p hpres
          by_cases hlen : 1 < ((ix :: rest').takeWhile is_transfer).length ∧
              ((ix :: rest').takeWhile is_transfer).length < 5
          · rw [if_pos hlen] at hl
            rcases ih rest2 stack2 _ res hstack2 hl p hpres with hmem | hok
            · rcases List.mem_append.mp hmem with hmem | hmem
              · exact Or.inl hmem
              · right
                have hpeq : p = ⟨nt, (ix :: rest').takeWhile is_transfer, top⟩ :=
                  List.mem_singleton.mp hmem
                subst hpeq
                have htix : is_transfer ix = true := by
                  by_contra hcon
                  rw [takeWhile_cons_neg _ _ _ (eq_false_of_ne_true hcon)] at hlen
                  simp at hlen
                refine ⟨hlen.1, ?_, hs nt hntmem, rfl, ?_⟩
                · show ((ix :: rest').takeWhile is_transfer).length ≤ 4
                  omega
                · intro t0 ht0
                  rw [takeWhile_cons_pos _ _ _ htix] at ht0
                  simp at ht0
                  exact ht0 ▸ hgt
            · exact Or.inr hok
          · rw [if_neg hlen] at hl
            exact ih rest2 stack2 _ res hstack2 hl p hpres

theorem dropWhile_head_false {α : Type} (p : α → Bool) :
    ∀ (l : List α) (a : α) (t : List α), l.dropWhile p = a :: t → p a = false := by
  intro l
  induction l with
  | nil => intro a t h; simp [List.dropWhile] at h
  | cons x xs ih =>
    intro a t h
    by_cases hx : p x
    · rw [dropWhile_cons_pos _ _ _ hx] at h
      exact ih a t h
    · rw [dropWhile_cons_neg _ _ _ (eq_false_of_ne_true hx)] at h
      obtain ⟨h1, _⟩ := List.cons.inj h
      exact h1 ▸ eq_false_of_ne_true hx

/-- The group-independent swap invariant: what `SwapOK` becomes once the
top-level instruction is known to carry stack height zero. -/
def ExtractedSwapOK (p : PotentialSwap) : Prop :=
  2 ≤ p.transfer_instructions.length ∧ p.transfer_instructions.length ≤ 4 ∧
  is_transfer p.exchange_instruction = false ∧
  p.top_level_ix.stackHeight = 0 ∧
  ∀ t0, p.transfer_instructions.head? = some t0 →
    t0.stackHeight > p.exchange_instruction.stackHeight

theorem processGroup_inv (msgIxs : List Instruction)
    (acc : List PotentialSwap × Bool) (g : InnerInstructionGroup)
    (res : List PotentialSwap × Bool)
    (hres : processGroup msgIxs acc g = .ok res) :
    ∀ p ∈ res.1, p ∈ acc.1 ∨ ExtractedSwapOK p := by
  rw [processGroup] at hres
  cases hix : msgIxs.get? g.index with
  | none => rw [hix] at hres; exact absurd hres (by simp)
  | some topRaw =>
    rw [hix] at hres
    dsimp only at hres
    cases hdw : ({ topRaw with stackHeight := 0 } :: g.instructions).dropWhile is_transfer with
    | nil =>
      rw [hdw] at hres
      obtain ⟨h1, _⟩ := Prod.mk.injEq .. ▸ Except.ok.inj hres
      intro p hp
      exact Or.inl (h1 ▸ hp)
    | cons nt rest =>
      rw [hdw] at hres
      dsimp only at hres
      cases hil : innerLoop { topRaw with stackHeight := 0 } (rest.length + 1) rest [nt] acc.1 with
      | error e => rw [hil] at hres; exact absurd hres (by simp)
      | ok swaps =>
        rw [hil] at hres
        obtain ⟨h1, _⟩ := Prod.mk.injEq .. ▸ Except.ok.inj hres
        have hnt : is_transfer nt = false := dropWhile_head_false _ _ _ _ hdw
        intro p hp
        rcases innerLoop_inv _ _ rest [nt] acc.1 swaps
            (fun x hx => List.mem_singleton.mp hx ▸ hnt) hil p (h1 ▸ hp) with hmem | hok
        · exact Or.inl hmem
        · right
          obtain ⟨a, b, c, d, e⟩ := hok
          exact ⟨a, b, c, by rw [d], e⟩

theorem extract_aux_inv :
    ∀ (groups : List InnerInstructionGroup) (msgIxs : List Instruction)
      (acc res : List PotentialSwap × Bool),
      List.foldlM (processGroup msgIxs) acc groups = .ok res →
      ∀ p ∈ res.1, p ∈ acc.1 ∨ ExtractedSwapOK p := by
  intro groups
  induction groups with
  | nil =>
    intro msgIxs acc res hres p hp
    rw [List.foldlM_nil] at hres
    have hae : acc = res := Except.ok.inj hres
    exact Or.inl (hae ▸ hp)
  | cons g gs ih =>
    intro msgIxs acc res hres p hp
    rw [List.foldlM_cons] at hres
    cases hpg : processGroup msgIxs acc g with
    | error e => rw [hpg] at hres; exact absurd hres (by simp [Bind.bind, Except.bind])
    | ok acc1 =>
      rw [hpg] at hres
      have hres' : List.foldlM (processGroup msgIxs) acc1 gs = .ok res := by
        simpa [Bind.bind, Except.bind] using hres
      rcases ih msgIxs acc1 res hres' p hp with hmem | hok
      · rcases processGroup_inv msgIxs acc g acc1 hpg p hmem with hmem' | hok'
        · exact Or.inl hmem'
        · exact Or.inr hok'
      · exact Or.inr hok

/-- Claim C2, amended: every emitted swap has between two and four
transfers, a non-transfer exchange instruction, a top-level instruction of
stack height zero, and a *first* transfer strictly deeper than the
exchange instruction.  (The original claim's requirement on *every*
transfer of the bundle fails; see the counterexample.) -/
theorem extract_swaps_invariant :
    ∀ (tx_resp : TransactionResponse) (swaps : List PotentialSwap),
      extract_potential_swaps tx_resp = .ok swaps →
      ∀ p ∈ swaps, ExtractedSwapOK p := by
  intro tx_resp swaps hsw p hp
  rw [extract_potential_swaps] at hsw
  cases ha : extract_aux tx_resp with
  | error e => rw [ha] at hsw; exact absurd hsw (by simp [Except.map])
  | ok pr =>
    rw [ha] at hsw
    have hswp : pr.1 = swaps := by
      simpa [Except.map] using hsw
    rw [extract_aux] at ha
    rcases extract_aux_inv _ _ _ _ ha p (hswp ▸ hp) with hmem | hok
    · exact absurd hmem (by simp)
    · exact hok

/-- The swap the extractor emits on `c2Tx`. -/
def c2Swap : PotentialSwap :=
  ⟨mkDexIx "innerProg" [] 1,
   [mkTransfer "s" "d" 5 2, mkTransfer "d" "u" 6 1],
   mkDexIx "dexProg" [] 0⟩

/-- The swap the extractor emits on `mkSwapTx`-built transactions. -/
def stdSwap (src dst : String) : PotentialSwap :=
  ⟨mkDexIx "dexProg" [] 0,
   [mkTransfer src dst 5 2, mkTransfer src dst 6 2],
   mkDexIx "dexProg" [] 0⟩

/-! ## Extractor error analysis -/

theorem popStack_error (h : Int) :
    ∀ (s : List Instruction) (e : String),
      popStack h s = .error e → e = indexErrorMsg := by
  intro s
  induction s with
  | nil =>
    intro e hp
    rw [popStack] at hp
    exact (Except.error.inj hp).symm
  | cons top rest ih =>
    intro e hp
    by_cases hc : h > top.stackHeight
    · rw [popStack, if_pos hc] at hp
      exact absurd hp (by simp)
    · rw [popStack, if_neg hc] at hp
      exact ih e hp

theorem walkNonTransfers_error :
    ∀ (rest stack : List Instruction) (e : String),
      walkNonTransfers rest stack = .error e → e = indexErrorMsg := by
  intro rest
  induction rest with
  | nil =>
    intro stack e hw
    rw [walkNonTransfers] at hw
    exact absurd hw (by simp)
  | cons ix rest' ih =>
    intro stack e hw
    rw [walkNonTransfers] at hw
    by_cases ht : is_transfer ix
    · rw [if_pos ht] at hw
      exact absurd hw (by simp)
    · rw [if_neg ht] at hw
      cases hp : popStack ix.stackHeight stack with
      | error e' =>
        rw [hp] at hw
        exact Except.error.inj hw ▸ popStack_error _ _ _ hp
      | ok pr =>
        rw [hp] at hw
        obtain ⟨nt, s1⟩ := pr
        exact ih (ix :: s1) e hw

theorem innerLoop_error (top : Instruction) :
    ∀ (fuel : Nat) (rest stack : List Instruction) (acc : List PotentialSwap) (e : String),
      innerLoop top fuel rest stack acc = .error e →
      e = fuelMsg ∨ e = indexErrorMsg := by
  intro fuel
  induction fuel with
  | zero =>
    intro rest stack acc e hl
    rw [innerLoop] at hl
    exact Or.inl (Except.error.inj hl).symm
  | succ fuel ih =>
    intro rest stack acc e hl
    match rest with
    | [] => rw [innerLoop] at hl; exact absurd hl (by simp)
    | ix :: rest' =>
      rw [innerLoop] at hl
      cases hp : popStack ix.stackHeight stack with
      | error e' =>
        rw [hp] at hl
        exact Or.inr (Except.error.inj hl ▸ popStack_error _ _ _ hp)
      | ok pr =>
        rw [hp] at hl
        obtain ⟨nt, stack1⟩ := pr
        dsimp only at hl
        cases hw : walkNonTransfers ((ix :: rest').dropWhile is_transfer) stack1 with
        | error e' =>
          rw [hw] at hl
          exact Or.inr (Except.error.inj hl ▸ walkNonTransfers_error _ _ _ hw)
        | ok pr2 =>
          rw [hw] at hl
          obtain ⟨stack2, rest2⟩ := pr2
          dsimp only at hl
          exact ih rest2 stack2 _ e hl

theorem processGroup_error (msgIxs : List Instruction)
    (acc : List PotentialSwap × Bool) (g : InnerInstructionGroup) (e : String)
    (hres : processGroup msgIxs acc g = .error e) :
    e = fuelMsg ∨ e = indexErrorMsg := by
  rw [processGroup] at hres
  cases hix : msgIxs.get? g.index with
  | none =>
    rw [hix] at hres
    exact Or.inr (Except.error.inj hres).symm
  | some topRaw =>
    rw [hix] at hres
    dsimp only at hres
    cases hdw : ({ topRaw with stackHeight := 0 } :: g.instructions).dropWhile is_transfer with
    | nil => rw [hdw] at hres; exact absurd hres (by simp)
    | cons nt rest =>
      rw [hdw] at hres
      dsimp only at hres
      cases hil : innerLoop { topRaw with stackHeight := 0 } (rest.length + 1) rest [nt] acc.1 with
      | error e' =>
        rw [hil] at hres
        exact Except.error.inj hres ▸ innerLoop_error _ _ _ _ _ _ hil
      | ok swaps => rw [hil] at hres; exact absurd hres (by simp)

theorem extract_foldl_error :
    ∀ (groups : List InnerInstructionGroup) (msgIxs : List Instruction)
      (acc : List PotentialSwap × Bool) (e : String),
      List.foldlM (processGroup msgIxs) acc groups = .error e →
      e = fuelMsg ∨ e = indexErrorMsg := by
  intro groups
  induction groups with
  | nil =>
    intro msgIxs acc e hres
    rw [List.foldlM_nil] at hres
    exact absurd hres (by simp [pure, Except.pure])
  | cons g gs ih =>
    intro msgIxs acc e hres
    rw [List.foldlM_cons] at hres
    cases hpg : processGroup msgIxs acc g with
    | error e' =>
      rw [hpg] at hres
      have : e' = e := by simpa [Bind.bind, Except.bind] using hres
      exact this ▸ processGroup_error _ _ _ _ hpg
    | ok acc1 =>
      rw [hpg] at hres
      have hres' : List.foldlM (processGroup msgIxs) acc1 gs = .error e := by
        simpa [Bind.bind, Except.bind] using hres
      exact ih msgIxs acc1 e hres'

/-! ## Fallback-branch analysis (claim C10) and classification locus
(claim C4) -/

theorem processGroup_flag (msgIxs : List Instruction)
    (acc : List PotentialSwap × Bool) (g : InnerInstructionGroup)
    (res : List PotentialSwap × Bool)
    (hres : processGroup msgIxs acc g = .ok res)
    (htop : ∀ topRaw, msgIxs.get? g.index = some topRaw → is_transfer topRaw = false) :
    res.2 = acc.2 := by
  rw [processGroup] at hres
  cases hix : msgIxs.get? g.index with
  | none => rw [hix] at hres; exact absurd hres (by simp)
  | some topRaw =>
    rw [hix] at hres
    dsimp only at hres
    have hnt : is_transfer { topRaw with stackHeight := 0 } = false := htop topRaw hix
    rw [dropWhile_cons_neg _ _ _ hnt] at hres
    dsimp only at hres
    cases hil : innerLoop { topRaw with stackHeight := 0 }
        (g.instructions.length + 1) g.instructions
        [{ topRaw with stackHeight := 0 }] acc.1 with
    | error e => rw [hil] at hres; exact absurd hres (by simp)
    | ok swaps =>
      rw [hil] at hres
      exact (Prod.mk.injEq .. ▸ Except.ok.inj hres).2 ▸ rfl

theorem extract_foldl_flag :
    ∀ (groups : List InnerInstructionGroup) (msgIxs : List Instruction)
      (acc res : List PotentialSwap × Bool),
      List.foldlM (processGroup msgIxs) acc groups = .ok res →
      (∀ g ∈ groups, ∀ topRaw, msgIxs.get? g.index = some topRaw →
        is_transfer topRaw = false) →
      res.2 = acc.2 := by
  intro groups
  induction groups with
  | nil =>
    intro msgIxs acc res hres _
    rw [List.foldlM_nil] at hres
    exact (Except.ok.inj hres) ▸ rfl
  | cons g gs ih =>
    intro msgIxs acc res hres htop
    rw [List.foldlM_cons] at hres
    cases hpg : processGroup msgIxs acc g with
    | error e => rw [hpg] at hres; exact absurd hres (by simp [Bind.bind, Except.bind])
    | ok acc1 =>
      rw [hpg] at hres
      have hres' : List.foldlM (processGroup msgIxs) acc1 gs = .ok res := by
        simpa [Bind.bind, Except.bind] using hres
      have h1 : res.2 = acc1.2 :=
        ih msgIxs acc1 res hres' (fun g' hg' => htop g' (List.mem_cons_of_mem _ hg'))
      have h2 : acc1.2 = acc.2 :=
        processGroup_flag msgIxs acc g acc1 hpg (htop g (List.mem_cons_self _ _))
      exact h1.trans h2

/-- Claim C10, amended: the backward `-1` index branch of the extractor is
never taken when the prepended top-level instruction of every
inner-instruction group is a non-transfer; it *is* reachable when a
group's top-level instruction is itself a parsed transfer (see the
counterexample), in which case the inner loop is skipped and the group
emits nothing. -/
theorem extract_fallback_unreachable :
    ∀ (tx_resp : TransactionResponse) (swaps : List PotentialSwap) (b : Bool),
      (∀ g ∈ tx_resp.meta.innerInstructions, ∀ topRaw,
        tx_resp.transaction.message.instructions.get? g.index = some topRaw →
        is_transfer topRaw = false) →
      extract_aux tx_resp = .ok (swaps, b) → b = false := by
  intro tx_resp swaps b htop hres
  rw [extract_aux] at hres
  exact extract_foldl_flag _ _ _ _ hres htop

/-- Claim C10, counterexample: on a transaction whose inner-instruction
group prepends a parsed-transfer top-level instruction to an empty group,
the leading-transfer skip consumes the whole list and the guarded read
takes its `-1` branch (recorded by the instrumentation boolean). -/
theorem extract_fallback_taken : extract_aux c10Tx = .ok ([], true) := rfl

/-- Witness for the amended claim C10 at a concrete transaction with no
inner-instruction groups. -/
theorem extract_fallback_unreachable_witness : (false : Bool) = false :=
  extract_fallback_unreachable ⟨⟨none, []⟩, ⟨⟨[], []⟩, []⟩⟩ [] false
    (by intro g hg; exact absurd hg (by simp)) rfl

/-- Claim C2, counterexample: the extractor emits a swap one of whose
transfers is *not* strictly deeper than the exchange instruction (the
stack-height check guards only the first transfer of a collected run). -/
theorem extract_swaps_depth_cex :
    extract_potential_swaps c2Tx = .ok [c2Swap] ∧
    mkTransfer "d" "u" 6 1 ∈ c2Swap.transfer_instructions ∧
    ¬ (mkTransfer "d" "u" 6 1).stackHeight > c2Swap.exchange_instruction.stackHeight :=
  ⟨rfl, by decide, by decide⟩

/-- Witness for the amended claim C2 at a concrete transaction. -/
theorem extract_swaps_invariant_witness : ExtractedSwapOK (stdSwap "s" "d") :=
  extract_swaps_invariant (mkSwapTx "sigE" "A" "s" "d") [stdSwap "s" "d"] rfl
    (stdSwap "s" "d") (List.mem_singleton.mpr rfl)

/-- Claim C4, amended: the extractor itself never raises the
transfer-classification failure (its errors are the index error or the
model's fuel marker); classification happens in the matcher, where the
failure aborts parsing of the whole block — on `c4Block` the entry
candidate's extraction succeeds, yet the block-level parse returns the
classification error instead of skipping that transaction. -/
theorem classification_not_in_extractor :
    (∀ (tx_resp : TransactionResponse) (e : String),
      extract_potential_swaps tx_resp = .error e → e ≠ unknownTransferMsg) ∧
    extract_potential_swaps (mkBadSwapTx "sigB" "A" "s" "d") =
      .ok [⟨mkDexIx "dexProg" [] 0,
            [mkBadTransfer "s" "d" 2, mkBadTransfer "s" "d" 2],
            mkDexIx "dexProg" [] 0⟩] ∧
    parse_block_recs c4Block = .error unknownTransferMsg := by
  refine ⟨?_, rfl, rfl⟩
  intro tx_resp e hres
  rw [extract_potential_swaps] at hres
  cases ha : extract_aux tx_resp with
  | ok pr => rw [ha] at hres; exact absurd hres (by simp [Except.map])
  | error e' =>
    rw [ha] at hres
    have hee : e' = e := by simpa [Except.map] using hres
    rw [extract_aux] at ha
    rcases hee ▸ extract_foldl_error _ _ _ _ ha with h | h
    · exact h ▸ (by decide)
    · exact h ▸ (by decide)

/-- A transaction whose only inner-instruction group points at an
out-of-range top-level index, so that extraction fails with the index
error. -/
def idxErrTx : TransactionResponse :=
  ⟨⟨none, [⟨3, []⟩]⟩, ⟨⟨[], [mkDexIx "dexProg" [] 1]⟩, []⟩⟩

/-- Witness for the amended claim C4: a concrete failing extraction whose
error is not the classification failure. -/
theorem classification_not_in_extractor_witness : indexErrorMsg ≠ unknownTransferMsg :=
  classification_not_in_extractor.1 idxErrTx indexErrorMsg rfl

/-- Claim C4, counterexample: a transfer-classification failure reached
through the matcher aborts the whole block parse; no sandwich list is
produced and no other transaction of the block is processed. -/
theorem classification_aborts_block :
    parse_block_for_potential_sandwiches c4Block = .error unknownTransferMsg := rfl

/-- The transaction of boundary scenario 5 of the spec: a single
inner-instruction group whose prepended instruction list is
`ix_A, t1, t2, ix_C, t4, t5`. -/
def mkNestedTx (ixA ixC t1 t2 t4 t5 : Instruction) : TransactionResponse :=
  ⟨⟨none, [⟨0, [t1, t2, ixC, t4, t5]⟩]⟩, ⟨⟨[], [ixA]⟩, []⟩⟩

/-- Claim C5: on the nested group `ix_A, t1, t2, ix_C, t4, t5` with
correct stack heights (transfers of `ix_A` at depth 2, the deeper call
`ix_C` at depth 2 with its transfers at depth 3), the extractor emits
exactly two swaps: `(ix_A, [t1, t2])` and `(ix_C, [t4, t5])`, both
recording the prepended `ix_A` as the top-level instruction. -/
theorem c5_nested (ixA ixC t1 t2 t4 t5 : Instruction)
    (hA : is_transfer ixA = false) (hC : is_transfer ixC = false)
    (h1 : is_transfer t1 = true) (h2 : is_transfer t2 = true)
    (h4 : is_transfer t4 = true) (h5 : is_transfer t5 = true)
    (hh1 : t1.stackHeight = 2) (hh2 : t2.stackHeight = 2)
    (hhC : ixC.stackHeight = 2)
    (hh4 : t4.stackHeight = 3) (hh5 : t5.stackHeight = 3) :
    extract_potential_swaps (mkNestedTx ixA ixC t1 t2 t4 t5) =
      .ok [⟨{ ixA with stackHeight := 0 }, [t1, t2], { ixA with stackHeight := 0 }⟩,
           ⟨ixC, [t4, t5], { ixA with stackHeight := 0 }⟩] := by
  have hA0 : is_transfer { ixA with stackHeight := 0 } = false := hA
  have hps : popStack 2 [{ ixA with stackHeight := 0 }] =
      .ok ({ ixA with stackHeight := 0 }, [{ ixA with stackHeight := 0 }]) := by
    simp [popStack]
  simp only [extract_potential_swaps, extract_aux, mkNestedTx, List.foldlM_cons,
    List.foldlM_nil, processGroup, List.get?, innerLoop, popStack, walkNonTransfers,
    List.takeWhile, List.dropWhile, hA0, hC, h1, h2, h4, h5, hh1, hh2, hhC, hh4, hh5]
  norm_num
  simp only [innerLoop, popStack, walkNonTransfers, List.takeWhile, List.dropWhile,
    hA0, hC, h1, h2, h4, h5, hh1, hh2, hhC, hh4, hh5, Bind.bind, Except.bind,
    pure, Except.pure, Except.map]
  norm_num
  rw [show (5 : Nat) = 4 + 1 from rfl]
  simp only [innerLoop, popStack, walkNonTransfers, List.takeWhile, List.dropWhile,
    hA0, hC, h1, h2, h4, h5, hh1, hh2, hhC, hh4, hh5]
  norm_num

/-- Witness for claim C5 at concrete instructions. -/
theorem c5_nested_witness :
    extract_potential_swaps
      (mkNestedTx (mkDexIx "a" [] 1) (mkDexIx "c" [] 2)
        (mkTransfer "s" "d" 1 2) (mkTransfer "s" "d" 2 2)
        (mkTransfer "x" "y" 3 3) (mkTransfer "x" "y" 4 3)) =
      .ok [⟨{ mkDexIx "a" [] 1 with stackHeight := 0 },
            [mkTransfer "s" "d" 1 2, mkTransfer "s" "d" 2 2],
            { mkDexIx "a" [] 1 with stackHeight := 0 }⟩,
           ⟨mkDexIx "c" [] 2,
            [mkTransfer "x" "y" 3 3, mkTransfer "x" "y" 4 3],
            { mkDexIx "a" [] 1 with stackHeight := 0 }⟩] :=
  c5_nested (mkDexIx "a" [] 1) (mkDexIx "c" [] 2)
    (mkTransfer "s" "d" 1 2) (mkTransfer "s" "d" 2 2)
    (mkTransfer "x" "y" 3 3) (mkTransfer "x" "y" 4 3)
    rfl rfl rfl rfl rfl rfl rfl rfl rfl rfl rfl

/-! ## Fee attribution (claim C8) -/

/-- The scan order asserted by the claim: the transaction's top-level
instructions followed by all inner instructions in order. -/
def feeScanOrder (tx : PotentialSwapWithTxContext) : List Instruction :=
  tx.tx_resp.transaction.message.instructions ++
    tx.tx_resp.meta.innerInstructions.flatMap (fun g => g.instructions)

/-- The tip-transfer test of the claim, as an option-valued selector. -/
def tipSelector (tips : List String) (ix : Instruction) : Option Int :=
  match ix.parsed with
  | some p =>
    if p.type = "transfer" && tips.contains p.info.destination then
      some p.info.lamports
    else none
  | none => none

/-- The claim's description of the jito tip, stated over the scan order:
the lamports of the first parsed `transfer` whose destination is a tip
recipient, and 0 when there is none. -/
def claimedJitoTip (tx : PotentialSwapWithTxContext) (tips : List String) : Int :=
  ((feeScanOrder tx).findSome? (tipSelector tips)).getD 0

theorem tipScan_eq_findSome (tips : List String) :
    ∀ l : List Instruction, tipScan tips l = l.findSome? (tipSelector tips) := by
  intro l
  induction l with
  | nil => rfl
  | cons ix rest ih =>
    rw [tipScan, List.findSome?_cons]
    cases hp : ix.parsed with
    | none => simpa [tipSelector, hp] using ih
    | some p =>
      by_cases hc : p.type = "transfer" ∧ p.info.destination ∈ tips
      · simp [tipSelector, hp, hc]
      · simp [tipSelector, hp, hc, ih]

/-- The fee-attribution scan agrees with the claim's first-match
description over the concatenated scan order. -/
theorem get_jito_tip_eq_claimed (tx : PotentialSwapWithTxContext) (tips : List String) :
    AttackerTx.get_jito_tip tx tips = claimedJitoTip tx tips := by
  rw [AttackerTx.get_jito_tip, claimedJitoTip, feeScanOrder, List.findSome?_append,
    tipScan_eq_findSome, tipScan_eq_findSome]
  cases h1 : tx.tx_resp.transaction.message.instructions.findSome? (tipSelector tips) with
  | some n => simp [h1]
  | none =>
    simp only [h1, Option.none_or]
    cases h2 : (tx.tx_resp.meta.innerInstructions.flatMap
        (fun g => g.instructions)).findSome? (tipSelector tips) with
    | some n => simp
    | none => simp

/-- Claim C8: every constructed attacker record reports `priority_fee = 0`
and a `jito_tip` equal to the lamports of the first parsed `transfer` to a
tip recipient, scanning top-level then inner instructions, 0 when none. -/
theorem attacker_tx_fees :
    ∀ (tx : PotentialSwapWithTxContext) (pv tv : String) (tips : List String)
      (a : AttackerTx),
      AttackerTx.from_potential_swap tx pv tv tips = .ok a →
      a.priority_fee = 0 ∧ a.jito_tip = claimedJitoTip tx tips := by
  intro tx pv tv tips a ha
  rw [AttackerTx.from_potential_swap] at ha
  cases h1 : mapFromIx tx.potential_swap.transfer_instructions with
  | error e => rw [h1] at ha; exact absurd ha (by simp)
  | ok infos =>
    rw [h1] at ha
    dsimp only at ha
    cases h2 : infos.get? 0 with
    | none => rw [h2] at ha; exact absurd ha (by simp)
    | some t0 =>
      rw [h2] at ha
      dsimp only at ha
      have hsplit :
          ∀ (spl : Except String (TransferInfo × TransferInfo)),
            (match spl with
              | .error e => Except.error e
              | .ok (pt, tt) =>
                match get_signature tx.tx_resp with
                | .error e => Except.error e
                | .ok sig =>
                  Except.ok (⟨sig, pt.amount, tt.amount,
                    AttackerTx.get_jito_tip tx tips, 0⟩ : AttackerTx)) = .ok a →
            a.priority_fee = 0 ∧ a.jito_tip = claimedJitoTip tx tips := by
        intro spl hspl
        cases spl with
        | error e => exact absurd hspl (by simp)
        | ok pr =>
          obtain ⟨pt, tt⟩ := pr
          cases hsig : get_signature tx.tx_resp with
          | error e => rw [hsig] at hspl; exact absurd hspl (by simp)
          | ok sig =>
            rw [hsig] at hspl
            have := Except.ok.inj hspl
            rw [← this]
            exact ⟨rfl, get_jito_tip_eq_claimed tx tips⟩
      exact hsplit _ ha

/-- Witness for claim C8 at the driver example entry transaction. -/
theorem attacker_tx_fees_witness :
    (⟨"sigEn", 10, 20, 777, 0⟩ : AttackerTx).priority_fee = 0 ∧
    (⟨"sigEn", 10, 20, 777, 0⟩ : AttackerTx).jito_tip =
      claimedJitoTip drvEntrySwap ["tip1"] :=
  attacker_tx_fees drvEntrySwap "vA" "vB" ["tip1"] ⟨"sigEn", 10, 20, 777, 0⟩ rfl

/-! ## Driver profit filter (claim C7) -/

/-- Claim C7: the driver stores a sandwich exactly when the resolution
succeeded and the exit profit-token amount strictly exceeds the entry
profit-token amount (line 214 of `processor.py`, an integer subtraction
compared with 0). -/
theorem driver_profit_filter :
    ∀ (bn bt : Int) (pm : List (String × PoolInfo)) (jt : List String)
      (ps : PotentialSandwich) (s : Sandwich),
      driverStep bn bt pm jt ps = .ok (some s) ↔
        (driverResolve bn bt pm jt ps = .ok (some s) ∧
         s.entry_tx.profit_token_amount < s.exit_tx.profit_token_amount) := by
  intro bn bt pm jt ps s
  rw [driverStep]
  cases hr : driverResolve bn bt pm jt ps with
  | error e => simp
  | ok o =>
    cases o with
    | none => simp
    | some t =>
      dsimp only
      by_cases hc : t.exit_tx.profit_token_amount - t.entry_tx.profit_token_amount > 0
      · rw [if_pos hc]
        constructor
        · intro h
          have ht : t = s := Option.some.inj (Except.ok.inj h)
          subst ht
          exact ⟨rfl, by omega⟩
        · intro h
          rw [Option.some.inj (Except.ok.inj h.1)]
      · rw [if_neg hc]
        constructor
        · intro h; exact absurd h (by simp)
        · intro h
          have ht : t = s := Option.some.inj (Except.ok.inj h.1)
          subst ht
          exact absurd h.2 (by omega)

/-- The sandwich stored by the driver example. -/
def drvStored : Sandwich :=
  ⟨1, 2, orcaAddr, "pool1", orcaAddr, "A", "tokA", "tokB",
   ⟨"sigEn", 10, 20, 777, 0⟩, [], ⟨"sigEx", 15, 30, 0, 0⟩⟩

/-- Witness for claim C7 at the driver example. -/
theorem driver_profit_filter_witness :
    driverResolve 1 2 drvPools ["tip1"] drvSandwich = .ok (some drvStored) ∧
    drvStored.entry_tx.profit_token_amount < drvStored.exit_tx.profit_token_amount :=
  (driver_profit_filter 1 2 drvPools ["tip1"] drvSandwich drvStored).mp rfl

/-! ## Direction resolution (claim C6) -/

/-- A transfer touches the pool when its source or destination is one of
the pool's two vaults, split as the two branch conditions of lines
185 and 191 of `processor.py`. -/
def touchesVault (pool : PoolInfo) (t : TransferInfo) : Prop :=
  (t.destination = pool.token_a_vault ∨ t.source = pool.token_b_vault) ∨
  (t.destination = pool.token_b_vault ∨ t.source = pool.token_a_vault)

/-- The claim's assignment rule at a matching transfer. -/
def directionRule (pool : PoolInfo) (t : TransferInfo) : Direction :=
  if t.destination = pool.token_a_vault ∨ t.source = pool.token_b_vault then
    ⟨pool.token_a, pool.token_b, pool.token_a_vault, pool.token_b_vault⟩
  else
    ⟨pool.token_b, pool.token_a, pool.token_b_vault, pool.token_a_vault⟩

theorem resolveDirection_some :
    ∀ (pool : PoolInfo) (ixs : List Instruction) (d : Direction),
      resolveDirection pool ixs = .ok (some d) →
      (d.profit_token = pool.token_a ∨ d.profit_token = pool.token_b) ∧
      ∃ pre ix post ti preInf,
        ixs = pre ++ ix :: post ∧
        mapFromIx pre = .ok preInf ∧
        (∀ t ∈ preInf, ¬ touchesVault pool t) ∧
        TransferInfo.from_ix ix = .ok ti ∧
        touchesVault pool ti ∧
        d = directionRule pool ti := by
  intro pool ixs
  induction ixs with
  | nil =>
    intro d h
    rw [resolveDirection] at h
    exact absurd h (by simp)
  | cons ix rest ih =>
    intro d h
    rw [resolveDirection] at h
    cases hti : TransferInfo.from_ix ix with
    | error e => rw [hti] at h; exact absurd h (by simp)
    | ok ti =>
      rw [hti] at h
      dsimp only at h
      by_cases hc1 : ti.destination = pool.token_a_vault ∨ ti.source = pool.token_b_vault
      · rw [if_pos hc1] at h
        have hd := (Option.some.inj (Except.ok.inj h)).symm
        subst hd
        refine ⟨Or.inl rfl, [], ix, rest, ti, [], rfl, rfl, by simp, hti, Or.inl hc1, ?_⟩
        rw [directionRule, if_pos hc1]
      · rw [if_neg hc1] at h
        by_cases hc2 : ti.destination = pool.token_b_vault ∨ ti.source = pool.token_a_vault
        · rw [if_pos hc2] at h
          have hd := (Option.some.inj (Except.ok.inj h)).symm
          subst hd
          refine ⟨Or.inr rfl, [], ix, rest, ti, [], rfl, rfl, by simp, hti, Or.inr hc2, ?_⟩
          rw [directionRule, if_neg hc1]
        · rw [if_neg hc2] at h
          obtain ⟨hmem, pre, ix', post, ti', preInf, heq, hpre, hpret, hti', htch, hdr⟩ := ih d h
          refine ⟨hmem, ix :: pre, ix', post, ti', ti :: preInf, by simp [heq], ?_, ?_, hti', htch, hdr⟩
          · rw [mapFromIx, hti, hpre]
          · intro t ht
            rcases List.mem_cons.mp ht with ht | ht
            · subst ht
              intro hcon
              rcases hcon with hcon | hcon
              · exact hc1 hcon
              · exact hc2 hcon
            · exact hpret t ht

theorem resolveDirection_none :
    ∀ (pool : PoolInfo) (ixs : List Instruction),
      resolveDirection pool ixs = .ok none →
      ∃ inf, mapFromIx ixs = .ok inf ∧ ∀ t ∈ inf, ¬ touchesVault pool t := by
  intro pool ixs
  induction ixs with
  | nil =>
    intro _
    exact ⟨[], rfl, by simp⟩
  | cons ix rest ih =>
    intro h
    rw [resolveDirection] at h
    cases hti : TransferInfo.from_ix ix with
    | error e => rw [hti] at h; exact absurd h (by simp)
    | ok ti =>
      rw [hti] at h
      dsimp only at h
      by_cases hc1 : ti.destination = pool.token_a_vault ∨ ti.source = pool.token_b_vault
      · rw [if_pos hc1] at h; exact absurd h (by simp)
      · rw [if_neg hc1] at h
        by_cases hc2 : ti.destination = pool.token_b_vault ∨ ti.source = pool.token_a_vault
        · rw [if_pos hc2] at h; exact absurd h (by simp)
        · rw [if_neg hc2] at h
          obtain ⟨inf, hinf, hnt⟩ := ih h
          refine ⟨ti :: inf, ?_, ?_⟩
          · rw [mapFromIx, hti, hinf]
          · intro t ht
            rcases List.mem_cons.mp ht with ht | ht
            · subst ht
              intro hcon
              rcases hcon with hcon | hcon
              · exact hc1 hcon
              · exact hc2 hcon
            · exact hnt t ht

/-- The DEX program id the driver reads from a potential sandwich. -/
def sandwichDex (ps : PotentialSandwich) : String :=
  ps.entry_tx.potential_swap.exchange_instruction.programId

/-- The pool address the driver reads (the exchange instruction's account
at the registry's pool index). -/
def sandwichPoolAddr (ps : PotentialSandwich) (xi : ExchangeInfo) : String :=
  ps.entry_tx.potential_swap.exchange_instruction.accounts.getD xi.pool_index ""

/-- Claim C6: direction resolution scans the entry transfers in order and
assigns the direction at the first transfer touching a pool vault
(`resolveDirection_some` shape, with `directionRule` the claim's
assignment); when no transfer touches either vault the driver discards the
sandwich and stores nothing; and every resolved sandwich's profit token is
one of the pool's two tokens. -/
theorem direction_resolution :
    (∀ (pool : PoolInfo) (ixs : List Instruction) (d : Direction),
      resolveDirection pool ixs = .ok (some d) →
      (d.profit_token = pool.token_a ∨ d.profit_token = pool.token_b) ∧
      ∃ pre ix post ti preInf,
        ixs = pre ++ ix :: post ∧
        mapFromIx pre = .ok preInf ∧
        (∀ t ∈ preInf, ¬ touchesVault pool t) ∧
        TransferInfo.from_ix ix = .ok ti ∧
        touchesVault pool ti ∧
        d = directionRule pool ti) ∧
    (∀ (pool : PoolInfo) (ixs : List Instruction),
      resolveDirection pool ixs = .ok none →
      ∃ inf, mapFromIx ixs = .ok inf ∧ ∀ t ∈ inf, ¬ touchesVault pool t) ∧
    (∀ (bn bt : Int) (pm : List (String × PoolInfo)) (jt : List String)
       (ps : PotentialSandwich) (xi : ExchangeInfo) (pool : PoolInfo),
      EXCHANGES_INFO.lookup (sandwichDex ps) = some xi →
      xi.pool_index < ps.entry_tx.potential_swap.exchange_instruction.accounts.length →
      pm.lookup (sandwichPoolAddr ps xi) = some pool →
      resolveDirection pool ps.entry_tx.potential_swap.transfer_instructions = .ok none →
      driverStep bn bt pm jt ps = .ok none) ∧
    (∀ (bn bt : Int) (pm : List (String × PoolInfo)) (jt : List String)
       (ps : PotentialSandwich) (s : Sandwich),
      driverResolve bn bt pm jt ps = .ok (some s) →
      ∃ xi pool, EXCHANGES_INFO.lookup (sandwichDex ps) = some xi ∧
        pm.lookup (sandwichPoolAddr ps xi) = some pool ∧
        (s.profit_token = pool.token_a ∨ s.profit_token = pool.token_b)) := by
  refine ⟨resolveDirection_some, resolveDirection_none, ?_, ?_⟩
  · intro bn bt pm jt ps xi pool hxi hlen hpool hdir
    rw [driverStep, driverResolve]
    rw [show EXCHANGES_INFO.lookup
        ps.entry_tx.potential_swap.exchange_instruction.programId = some xi from hxi]
    dsimp only
    rw [if_neg (by omega)]
    rw [show pm.lookup
        (ps.entry_tx.potential_swap.exchange_instruction.accounts.getD xi.pool_index "")
        = some pool from hpool]
    dsimp only
    rw [hdir]
  · intro bn bt pm jt ps s hres
    rw [driverResolve] at hres
    cases hxi : EXCHANGES_INFO.lookup
        ps.entry_tx.potential_swap.exchange_instruction.programId with
    | none => rw [hxi] at hres; exact absurd hres (by simp)
    | some xi =>
      rw [hxi] at hres
      dsimp only at hres
      by_cases hlen : ps.entry_tx.potential_swap.exchange_instruction.accounts.length ≤
          xi.pool_index
      · rw [if_pos hlen] at hres; exact absurd hres (by simp)
      · rw [if_neg hlen] at hres
        cases hpool : pm.lookup
            (ps.entry_tx.potential_swap.exchange_instruction.accounts.getD
              xi.pool_index "") with
        | none => rw [hpool] at hres; exact absurd hres (by simp)
        | some pool =>
          rw [hpool] at hres
          dsimp only at hres
          cases hdir : resolveDirection pool
              ps.entry_tx.potential_swap.transfer_instructions with
          | error e => rw [hdir] at hres; exact absurd hres (by simp)
          | ok o =>
            cases o with
            | none => rw [hdir] at hres; exact absurd hres (by simp)
            | some d =>
              rw [hdir] at hres
              dsimp only at hres
              refine ⟨xi, pool, hxi, hpool, ?_⟩
              have hd := (resolveDirection_some pool _ d hdir).1
              cases hsig : get_signer ps.entry_tx.tx_resp with
              | error e => rw [hsig] at hres; exact absurd hres (by simp)
              | ok attacker =>
                rw [hsig] at hres
                cases hea : AttackerTx.from_potential_swap ps.entry_tx
                    d.profit_token_vault d.targeted_token_vault jt with
                | error e => rw [hea] at hres; exact absurd hres (by simp)
                | ok entryA =>
                  rw [hea] at hres
                  dsimp only at hres
                  cases hts : ps.target_txs.mapM
                      (fun t => TargetTx.from_potential_swap t
                        d.profit_token_vault d.targeted_token_vault) with
                  | error e => rw [hts] at hres; exact absurd hres (by simp)
                  | ok targets =>
                    rw [hts] at hres
                    dsimp only at hres
                    cases hxa : AttackerTx.from_potential_swap ps.exit_tx
                        d.profit_token_vault d.targeted_token_vault jt with
                    | error e => rw [hxa] at hres; exact absurd hres (by simp)
                    | ok exitA =>
                      rw [hxa] at hres
                      have hsd := Option.some.inj (Except.ok.inj hres)
                      rw [← hsd]
                      exact hd

/-- Witness for claim C6 at the driver example pool and entry transfers. -/
theorem direction_resolution_witness :
    (⟨"tokA", "tokB", "vA", "vB"⟩ : Direction).profit_token = drvPool.token_a ∨
    (⟨"tokA", "tokB", "vA", "vB"⟩ : Direction).profit_token = drvPool.token_b :=
  (direction_resolution.1 drvPool drvEntrySwap.potential_swap.transfer_instructions
    ⟨"tokA", "tokB", "vA", "vB"⟩ rfl).1

/-! ## Matcher soundness (claims C3 and C9) -/

theorem victimLoop_sound (txl : List PotentialSwapWithTxContext)
    (es ed : String) (eSrc eDst : List String) :
    ∀ (fuel k j : Nat) (vs : List (Nat × PotentialSwapWithTxContext)),
      victimLoop txl es ed eSrc eDst fuel k j = .ok (some vs) →
      (∀ p ∈ vs, k ≤ p.1 ∧ p.1 < j ∧ txl.get? p.1 = some p.2 ∧
        (∃ sg, get_signer p.2.tx_resp = .ok sg ∧ sg ≠ es) ∧
        p.2.potential_swap.exchange_instruction.programId = ed ∧
        (∃ tInf, transferInfosOfFirstTwo p.2.potential_swap = .ok tInf ∧
          intersects eSrc (sourcesOf tInf) = true ∧
          intersects eDst (destinationsOf tInf) = true)) ∧
      (vs.map Prod.fst).Pairwise (· < ·) := by
  intro fuel
  induction fuel with
  | zero => intro k j vs h; exact absurd h (by simp [victimLoop])
  | succ fuel ih =>
    intro k j vs h
    rw [victimLoop] at h
    by_cases hkj : k < j
    · rw [if_pos hkj] at h
      cases hget : txl.get? k with
      | none => rw [hget] at h; exact absurd h (by simp)
      | some target =>
        rw [hget] at h
        dsimp only at h
        cases hsg : get_signer target.tx_resp with
        | error e => rw [hsg] at h; exact absurd h (by simp)
        | ok ts =>
          rw [hsg] at h
          dsimp only at h
          by_cases hts : ts = es
          · rw [if_pos hts] at h; exact absurd h (by simp)
          · rw [if_neg hts] at h
            by_cases hdex : target.potential_swap.exchange_instruction.programId = ed
            · rw [if_pos hdex] at h
              cases hinf : transferInfosOfFirstTwo target.potential_swap with
              | error e => rw [hinf] at h; exact absurd h (by simp)
              | ok tInf =>
                rw [hinf] at h
                dsimp only at h
                by_cases hint : (intersects eSrc (sourcesOf tInf) &&
                    intersects eDst (destinationsOf tInf)) = true
                · rw [if_pos hint] at h
                  cases hrec : victimLoop txl es ed eSrc eDst fuel (k + 1) j with
                  | error e => rw [hrec] at h; exact absurd h (by simp)
                  | ok o =>
                    cases o with
                    | none => rw [hrec] at h; exact absurd h (by simp)
                    | some vs' =>
                      rw [hrec] at h
                      have hvs : (k, target) :: vs' = vs :=
                        Option.some.inj (Except.ok.inj h)
                      obtain ⟨hall, hpair⟩ := ih (k + 1) j vs' hrec
                      obtain ⟨hi1, hi2⟩ := Bool.and_eq_true .. |>.mp hint
                      subst hvs
                      constructor
                      · intro p hp
                        rcases List.mem_cons.mp hp with hp | hp
                        · subst hp
                          exact ⟨le_refl k, hkj, hget, ⟨ts, hsg, hts⟩, hdex,
                                 tInf, hinf, hi1, hi2⟩
                        · obtain ⟨a, b, c, d, e, f⟩ := hall p hp
                          exact ⟨by omega, b, c, d, e, f⟩
                      · rw [List.map_cons]
                        refine List.Pairwise.cons ?_ hpair
                        intro n hn
                        obtain ⟨q, hq, hqn⟩ := List.mem_map.mp hn
                        have := (hall q hq).1
                        omega
                · rw [if_neg hint] at h
                  obtain ⟨hall, hpair⟩ := ih (k + 1) j vs h
                  refine ⟨?_, hpair⟩
                  intro p hp
                  obtain ⟨a, b, c, d, e, f⟩ := hall p hp
                  exact ⟨by omega, b, c, d, e, f⟩
            · rw [if_neg hdex] at h
              obtain ⟨hall, hpair⟩ := ih (k + 1) j vs h
              refine ⟨?_, hpair⟩
              intro p hp
              obtain ⟨a, b, c, d, e, f⟩ := hall p hp
              exact ⟨by omega, b, c, d, e, f⟩
    · rw [if_neg hkj] at h
      have hvs : [] = vs := Option.some.inj (Except.ok.inj h)
      subst hvs
      exact ⟨by simp, by simp⟩

theorem exitLoop_sound (txl : List PotentialSwapWithTxContext) (i : Nat)
    (entry : PotentialSwapWithTxContext) (es esig : String) (used : List String) :
    ∀ (fuel j : Nat) (r : EmitRec),
      exitLoop txl i entry es esig used fuel j = .ok (some r) →
      r.entryIdx = i ∧ r.entry_sw = entry ∧ r.entrySig = esig ∧
      j ≤ r.exitIdx ∧ r.exitIdx < txl.length ∧
      txl.get? r.exitIdx = some r.exit_sw ∧
      get_signer r.exit_sw.tx_resp = .ok es ∧
      get_signature r.exit_sw.tx_resp = .ok r.exitSig ∧
      entry.potential_swap.exchange_instruction.programId =
        r.exit_sw.potential_swap.exchange_instruction.programId ∧
      (∃ eInf xInf,
        transferInfosOfFirstTwo entry.potential_swap = .ok eInf ∧
        transferInfosOfFirstTwo r.exit_sw.potential_swap = .ok xInf ∧
        intersects (sourcesOf eInf) (destinationsOf xInf) = true ∧
        intersects (destinationsOf eInf) (sourcesOf xInf) = true ∧
        victimLoop txl es entry.potential_swap.exchange_instruction.programId
          (sourcesOf eInf) (destinationsOf eInf)
          (txl.length + 1) (i + 1) r.exitIdx = .ok (some r.victims)) ∧
      r.victims ≠ [] := by
  intro fuel
  induction fuel with
  | zero => intro j r h; exact absurd h (by simp [exitLoop])
  | succ fuel ih =>
    intro j r h
    rw [exitLoop] at h
    by_cases hjl : j < txl.length
    · rw [if_pos hjl] at h
      cases hget : txl.get? j with
      | none => rw [hget] at h; exact absurd h (by simp)
      | some exitCand =>
        rw [hget] at h
        dsimp only at h
        cases hsg : get_signer exitCand.tx_resp with
        | error e => rw [hsg] at h; exact absurd h (by simp)
        | ok exitSigner =>
          rw [hsg] at h
          dsimp only at h
          cases hsig : get_signature exitCand.tx_resp with
          | error e => rw [hsig] at h; exact absurd h (by simp)
          | ok exitSig =>
            rw [hsig] at h
            dsimp only at h
            by_cases hused : used.contains exitSig = true
            · rw [if_pos hused] at h
              obtain ⟨a, b, c, d, rest⟩ := ih (j + 1) r h
              exact ⟨a, b, c, by omega, rest⟩
            · rw [if_neg hused] at h
              by_cases hes : exitSigner = es
              · rw [if_pos hes] at h
                by_cases hdex : entry.potential_swap.exchange_instruction.programId ≠
                    exitCand.potential_swap.exchange_instruction.programId
                · rw [if_pos hdex] at h
                  obtain ⟨a, b, c, d, rest⟩ := ih (j + 1) r h
                  exact ⟨a, b, c, by omega, rest⟩
                · rw [if_neg hdex] at h
                  cases heInf : transferInfosOfFirstTwo entry.potential_swap with
                  | error e => rw [heInf] at h; exact absurd h (by simp)
                  | ok eInf =>
                    rw [heInf] at h
                    rw [← heInf]
                    dsimp only at h
                    cases hxInf : transferInfosOfFirstTwo exitCand.potential_swap with
                    | error e => rw [hxInf] at h; exact absurd h (by simp)
                    | ok xInf =>
                      rw [hxInf] at h
                      dsimp only at h
                      by_cases hopp : (!(intersects (sourcesOf eInf) (destinationsOf xInf) &&
                          intersects (destinationsOf eInf) (sourcesOf xInf))) = true
                      · rw [if_pos hopp] at h
                        obtain ⟨a, b, c, d, rest⟩ := ih (j + 1) r h
                        exact ⟨a, b, c, by omega, rest⟩
                      · rw [if_neg hopp] at h
                        cases hvl : victimLoop txl es
                            entry.potential_swap.exchange_instruction.programId
                            (sourcesOf eInf) (destinationsOf eInf)
                            (txl.length + 1) (i + 1) j with
                        | error e => rw [hvl] at h; exact absurd h (by simp)
                        | ok o =>
                          cases o with
                          | none =>
                            rw [hvl] at h
                            obtain ⟨a, b, c, d, rest⟩ := ih (j + 1) r h
                            exact ⟨a, b, c, by omega, rest⟩
                          | some vs =>
                            cases vs with
                            | nil =>
                              rw [hvl] at h
                              obtain ⟨a, b, c, d, rest⟩ := ih (j + 1) r h
                              exact ⟨a, b, c, by omega, rest⟩
                            | cons v vtail =>
                              rw [hvl] at h
                              have hr : (⟨i, j, entry, v :: vtail, exitCand, esig,
                                  exitSig⟩ : EmitRec) = r :=
                                Option.some.inj (Except.ok.inj h)
                              subst hr
                              have hopp' : (intersects (sourcesOf eInf) (destinationsOf xInf) &&
                                  intersects (destinationsOf eInf) (sourcesOf xInf)) = true := by
                                revert hopp
                                cases intersects (sourcesOf eInf) (destinationsOf xInf) &&
                                    intersects (destinationsOf eInf) (sourcesOf xInf) <;> simp
                              obtain ⟨ho1, ho2⟩ := Bool.and_eq_true .. |>.mp hopp'
                              have hdex' : entry.potential_swap.exchange_instruction.programId =
                                  exitCand.potential_swap.exchange_instruction.programId := by
                                by_contra hcon
                                exact hdex hcon
                              exact ⟨rfl, rfl, rfl, le_refl j, hjl, hget,
                                     hes ▸ hsg, hsig, hdex',
                                     ⟨eInf, xInf, heInf, hxInf, ho1, ho2, hvl⟩,
                                     by simp⟩
              · rw [if_neg hes] at h
                obtain ⟨a, b, c, d, rest⟩ := ih (j + 1) r h
                exact ⟨a, b, c, by omega, rest⟩
    · rw [if_neg hjl] at h
      exact absurd h (by simp)

/-- The per-emission invariant of the matcher asserted by the spec: entry
and exit indices and values recorded in the transaction-list order with at
least one slot between them, an entry doing exactly one swap, a common
signer avoided by every victim, a common DEX program, opposite candidate
vault sets, and a non-empty ordered victim list strictly between entry and
exit. -/
def EmitRecOK (txl : List PotentialSwapWithTxContext) (r : EmitRec) : Prop :=
  txl.get? r.entryIdx = some r.entry_sw ∧
  txl.get? r.exitIdx = some r.exit_sw ∧
  r.entryIdx + 2 ≤ r.exitIdx ∧
  r.entry_sw.number_of_tx_swaps = 1 ∧
  (∃ s, get_signer r.entry_sw.tx_resp = .ok s ∧
    get_signer r.exit_sw.tx_resp = .ok s ∧
    ∀ p ∈ r.victims, ∃ ts, get_signer p.2.tx_resp = .ok ts ∧ ts ≠ s) ∧
  r.entry_sw.potential_swap.exchange_instruction.programId =
    r.exit_sw.potential_swap.exchange_instruction.programId ∧
  (∃ eInf xInf,
    transferInfosOfFirstTwo r.entry_sw.potential_swap = .ok eInf ∧
    transferInfosOfFirstTwo r.exit_sw.potential_swap = .ok xInf ∧
    intersects (sourcesOf eInf) (destinationsOf xInf) = true ∧
    intersects (destinationsOf eInf) (sourcesOf xInf) = true) ∧
  r.victims ≠ [] ∧
  (∀ p ∈ r.victims, r.entryIdx < p.1 ∧ p.1 < r.exitIdx ∧ txl.get? p.1 = some p.2) ∧
  (r.victims.map Prod.fst).Pairwise (· < ·)

theorem matchLoop_sound (txl : List PotentialSwapWithTxContext) :
    ∀ (fuel i : Nat) (used : List String) (acc res : List EmitRec),
      matchLoop txl fuel i used acc = .ok res →
      ∃ new, res = acc ++ new ∧
        (∀ r ∈ new, i ≤ r.entryIdx ∧ EmitRecOK txl r) ∧
        (new.map EmitRec.entryIdx).Pairwise (· < ·) := by
  intro fuel
  induction fuel with
  | zero => intro i used acc res h; exact absurd h (by simp [matchLoop])
  | succ fuel ih =>
    intro i used acc res h
    rw [matchLoop] at h
    by_cases hil : i < txl.length
    · rw [if_pos hil] at h
      cases hget : txl.get? i with
      | none => rw [hget] at h; exact absurd h (by simp)
      | some entry =>
        rw [hget] at h
        dsimp only at h
        cases hsg : get_signer entry.tx_resp with
        | error e => rw [hsg] at h; exact absurd h (by simp)
        | ok entrySigner =>
          rw [hsg] at h
          dsimp only at h
          cases hsig : get_signature entry.tx_resp with
          | error e => rw [hsig] at h; exact absurd h (by simp)
          | ok entrySig =>
            rw [hsig] at h
            dsimp only at h
            by_cases hskip : (used.contains entrySig ||
                entry.number_of_tx_swaps != 1) = true
            · rw [if_pos hskip] at h
              obtain ⟨new, h1, h2, h3⟩ := ih (i + 1) used acc res h
              refine ⟨new, h1, ?_, h3⟩
              intro r hr
              obtain ⟨ha, hb⟩ := h2 r hr
              exact ⟨by omega, hb⟩
            · rw [if_neg hskip] at h
              have hcount : entry.number_of_tx_swaps = 1 := by
                have := Bool.or_eq_false_iff.mp (Bool.not_eq_true .. |>.mp hskip)
                simpa using this.2
              cases hexit : exitLoop txl i entry entrySigner entrySig used
                  (txl.length + 1) (i + 2) with
              | error e => rw [hexit] at h; exact absurd h (by simp)
              | ok o =>
                cases o with
                | none =>
                  rw [hexit] at h
                  obtain ⟨new, h1, h2, h3⟩ := ih (i + 1) used acc res h
                  refine ⟨new, h1, ?_, h3⟩
                  intro r hr
                  obtain ⟨ha, hb⟩ := h2 r hr
                  exact ⟨by omega, hb⟩
                | some r0 =>
                  rw [hexit] at h
                  dsimp only at h
                  obtain ⟨new, h1, h2, h3⟩ := ih (i + 1) _ _ res h
                  obtain ⟨e1, e2, e3, e4, e5, e6, e7, e8, e9, e10, e11⟩ :=
                    exitLoop_sound txl i entry entrySigner entrySig used
                      (txl.length + 1) (i + 2) r0 hexit
                  obtain ⟨eInf, xInf, hef, hxf, ho1, ho2, hvl⟩ := e10
                  obtain ⟨hvall, hvpair⟩ :=
                    victimLoop_sound txl entrySigner
                      entry.potential_swap.exchange_instruction.programId
                      (sourcesOf eInf) (destinationsOf eInf)
                      (txl.length + 1) (i + 1) r0.exitIdx r0.victims hvl
                  have hrok : EmitRecOK txl r0 := by
                    refine ⟨?_, e6, ?_, ?_, ⟨entrySigner, ?_, e7, ?_⟩, ?_, ⟨eInf, xInf, ?_, hxf, ho1, ho2⟩, e11, ?_, hvpair⟩
                    · rw [e1, e2]; exact hget
                    · omega
                    · rw [e2]; exact hcount
                    · rw [e2]; exact hsg
                    · intro p hp
                      obtain ⟨_, _, _, ⟨sg, hsg', hne⟩, _, _⟩ := hvall p hp
                      exact ⟨sg, hsg', hne⟩
                    · rw [e2]; exact e9
                    · rw [e2]; exact hef
                    · intro p hp
                      obtain ⟨ha, hb, hc, _, _, _⟩ := hvall p hp
                      exact ⟨by omega, hb, hc⟩
                  refine ⟨r0 :: new, by rw [h1]; simp, ?_, ?_⟩
                  · intro r hr
                    rcases List.mem_cons.mp hr with hr | hr
                    · subst hr
                      exact ⟨by omega, hrok⟩
                    · obtain ⟨ha, hb⟩ := h2 r hr
                      exact ⟨by omega, hb⟩
                  · rw [List.map_cons]
                    refine List.Pairwise.cons ?_ h3
                    intro n hn
                    obtain ⟨q, hq, hqn⟩ := List.mem_map.mp hn
                    have := (h2 q hq).1
                    omega
    · rw [if_neg hil] at h
      refine ⟨[], by rw [← Except.ok.inj h, List.append_nil], by simp, by simp⟩

/-- Claim C3: every sandwich emitted by the matcher on a block satisfies
the full emission invariant `EmitRecOK`: same signer for entry and exit,
same DEX program, opposite candidate vault sets, a non-empty victim list
none of whose signers is the entry signer, a single-swap entry, and block
order with at least one victim slot between entry and exit. -/
theorem matcher_sandwich_invariants :
    ∀ (block : Block) (txl : List PotentialSwapWithTxContext) (recs : List EmitRec),
      buildTxList block.transactions = .ok txl →
      matchLoop txl (txl.length + 1) 0 [] [] = .ok recs →
      ∀ r ∈ recs, EmitRecOK txl r := by
  intro block txl recs _ hml r hr
  obtain ⟨new, h1, h2, _⟩ := matchLoop_sound txl (txl.length + 1) 0 [] [] recs hml
  rw [h1] at hr
  exact (h2 r (by simpa using hr)).2

/-- Claim C9: within a block, the matcher emits sandwiches in strictly
ascending order of the entry's index in the swap sequence; the recorded
index is the position of the emitted entry in the sequence. -/
theorem matcher_emission_order :
    ∀ (block : Block) (txl : List PotentialSwapWithTxContext) (recs : List EmitRec),
      buildTxList block.transactions = .ok txl →
      matchLoop txl (txl.length + 1) 0 [] [] = .ok recs →
      (recs.map EmitRec.entryIdx).Pairwise (· < ·) ∧
      ∀ r ∈ recs, txl.get? r.entryIdx = some r.entry_sw := by
  intro block txl recs _ hml
  obtain ⟨new, h1, h2, h3⟩ := matchLoop_sound txl (txl.length + 1) 0 [] [] recs hml
  constructor
  · rw [h1]
    simpa using h3
  · intro r hr
    rw [h1] at hr
    exact ((h2 r (by simpa using hr)).2).1

/-- The swap sequence the driver builds from `c1Block`. -/
def c1Txl : List PotentialSwapWithTxContext :=
  [⟨mkSwapTx "sigE" "A" "s" "d", stdSwap "s" "d", 1⟩,
   ⟨mkSwapTx "sigV" "B" "s" "d", stdSwap "s" "d", 1⟩,
   ⟨mkSwapTx "sigX" "A" "d" "s", stdSwap "d" "s", 1⟩,
   ⟨mkSwapTx "sigW" "C" "d" "s", stdSwap "d" "s", 1⟩,
   ⟨mkSwapTx "sigY" "A" "s" "d", stdSwap "s" "d", 1⟩]

/-- The first sandwich the matcher emits on `c1Block`. -/
def c1Rec1 : EmitRec :=
  ⟨0, 2, ⟨mkSwapTx "sigE" "A" "s" "d", stdSwap "s" "d", 1⟩,
   [(1, ⟨mkSwapTx "sigV" "B" "s" "d", stdSwap "s" "d", 1⟩)],
   ⟨mkSwapTx "sigX" "A" "d" "s", stdSwap "d" "s", 1⟩, "sigE", "sigX"⟩

/-- The second sandwich the matcher emits on `c1Block`; its entry is the
transaction `sigX`, which already served as the exit of the first. -/
def c1Rec2 : EmitRec :=
  ⟨2, 4, ⟨mkSwapTx "sigX" "A" "d" "s", stdSwap "d" "s", 1⟩,
   [(3, ⟨mkSwapTx "sigW" "C" "d" "s", stdSwap "d" "s", 1⟩)],
   ⟨mkSwapTx "sigY" "A" "s" "d", stdSwap "s" "d", 1⟩, "sigX", "sigY"⟩

/-- Claim C1, failing evaluation: on `c1Block` the matcher emits two
sandwiches and the signature `sigX` appears in both (exit of the first,
entry of the second).  Line 137 of `processor.py` calls
`attacker_tx_set.update(entry_signature, exit_signature)`, whose
arguments are strings and therefore iterated character by character: the
`used` set receives one-character strings, the full-signature membership
checks at lines 91 and 99 never fire, and a transaction is reused across
sandwiches. -/
theorem used_set_update_bug :
    (parse_block_for_potential_sandwiches c1Block).map
      (fun pr => pr.1.countP
        (fun sand => sand.entry_tx.tx_resp.transaction.signatures.contains "sigX" ||
                     sand.exit_tx.tx_resp.transaction.signatures.contains "sigX")) =
      .ok 2 := rfl

/-- Witness for claim C3: the first emitted sandwich of `c1Block`
satisfies the emission invariant. -/
theorem matcher_sandwich_invariants_witness : EmitRecOK c1Txl c1Rec1 :=
  matcher_sandwich_invariants c1Block c1Txl [c1Rec1, c1Rec2] rfl rfl c1Rec1
    (List.mem_cons_self _ _)

/-- Witness for claim C9: the emissions on `c1Block` carry strictly
ascending entry indices. -/
theorem matcher_emission_order_witness :
    (([c1Rec1, c1Rec2] : List EmitRec).map EmitRec.entryIdx).Pairwise (· < ·) ∧
    ∀ r ∈ ([c1Rec1, c1Rec2] : List EmitRec), c1Txl.get? r.entryIdx = some r.entry_sw :=
  matcher_emission_order c1Block c1Txl [c1Rec1, c1Rec2] rfl rfl
